import Mathlib

/-!
Verification of the lexical scanner of `super-engine` (`src/scanner.rs`).

The scanner is embedded shallowly: the mutable `Scanner` struct becomes an
explicit state record threaded through pure functions, Rust panics
(out-of-bounds indexing of `Vec<char>`, `unwrap` on a failed `f64` parse)
become an `Except RustPanic` result, and the `while` loops become fueled
structural recursions (every caller passes fuel that is proved sufficient,
so the fuel-exhaustion branch is unreachable on those calls).
-/

set_option maxRecDepth 4000

/-- A Rust panic reachable from the scanner: slice / index out of bounds,
or `unwrap` on the `Err` result of `str::parse::<f64>`. -/
inductive RustPanic where
  | indexOutOfBounds
  | parseFail
deriving DecidableEq

/-- Modelled from the spec: the token-kind enumeration `TokenType`
(`crate::domain::token_type`, not under `src/`): single-character
punctuation, one/two-character operators, literal kinds, reserved words
and the end-of-input marker. -/
inductive TokenType where
  | LeftParen | RightParen | LeftBrace | RightBrace
  | Comma | Dot | Minus | Plus | Semicolon | Star | Slash
  | Bang | BangEqual | Equal | EqualEqual
  | Less | LessEqual | Greater | GreaterEqual
  | String | Number | Identifier
  | And | Class | Else | False | For | Fun | If | Nil | Or
  | Print | Return | Super | This | True | Var | While
  | Eof
deriving DecidableEq

/-- Modelled from the spec: `crate::domain::Literal` (not under `src/`), one of
string, number, boolean, nil. `Number` carries the numeric lexeme's text:
the IEEE-754 double parsed from it by Rust is a pure function of that text,
and no claim concerns the bit-level float value, only whether the parse
succeeds (see `f64_from_str_ok`). -/
inductive Literal where
  | String : List Char → Literal
  | Number : List Char → Literal
  | Boolean : Bool → Literal
  | Nil : Literal
deriving DecidableEq

/-- Modelled from the spec: `crate::domain::token::Token` (not under `src/`):
kind, exact source text, optional decoded literal, source position. -/
structure Token where
  token_type : TokenType
  lexeme : List Char
  literal : Option Literal
  line : Nat
  column : Nat
deriving DecidableEq

/-- Modelled from the spec: `Token::new`, the plain record constructor used by
`Scanner::add_token` and `Scanner::scan_tokens`. -/
def Token.new (token_type : TokenType) (lexeme : List Char)
    (literal : Option Literal) (line column : Nat) : Token :=
  { token_type := token_type, lexeme := lexeme, literal := literal,
    line := line, column := column }

/-- `ScannerError` from `src/scanner.rs`: message plus position. -/
structure ScannerError where
  message : String
  line : Nat
  column : Nat
deriving DecidableEq

/-- The `Scanner` struct from `src/scanner.rs`; `u32`/`usize` counters become
`Nat` (no arithmetic in the scanner can make their values wrap in practice,
and no claim concerns overflow). -/
structure Scanner where
  source : List Char
  tokens : List Token
  start : Nat
  current : Nat
  line : Nat
  column : Nat
  errors : List ScannerError
deriving DecidableEq

/-- ASCII digit test, `'0'..='9'`. -/
def is_ascii_digit (c : Char) : Bool := '0' ≤ c && c ≤ '9'

/-- Modelled from the spec: Rust `char::is_numeric` (true iff the character has
Unicode general category Nd, Nl or No). The Rust standard library is outside
this repository. On the ASCII range the model is exact (only `'0'..='9'` are
numeric); of the non-ASCII characters the model lists exactly those exercised
below: U+0662 ARABIC-INDIC DIGIT TWO is numeric (category Nd), everything
else maps to false. No theorem below depends on the classification of a
non-ASCII character other than the listed ones. -/
def rust_is_numeric (c : Char) : Bool :=
  if c.val < 128 then is_ascii_digit c else c = '٢'

/-- Modelled from the spec: Rust `char::is_alphabetic` (Unicode `Alphabetic`).
Exact on ASCII; of the non-ASCII characters the model lists exactly those
exercised below: U+00E9 (é) and U+03A9 (Ω) are alphabetic, everything else
maps to false. -/
def rust_is_alphabetic (c : Char) : Bool :=
  if c.val < 128 then ('a' ≤ c && c ≤ 'z') || ('A' ≤ c && c ≤ 'Z')
  else c = 'é' || c = 'Ω'

/-- Modelled from the spec: Rust `char::is_alphanumeric`, defined in the
standard library as `is_alphabetic() || is_numeric()`. -/
def rust_is_alphanumeric (c : Char) : Bool :=
  rust_is_alphabetic c || rust_is_numeric c

/-- Exponent-part acceptance of Rust `f64::from_str`: either no exponent at
all, or `e`/`E`, an optional sign, and at least one ASCII digit. -/
def exp_ok (r : List Char) : Bool :=
  match r with
  | [] => true
  | c :: rest =>
    if c = 'e' || c = 'E' then
      let rest2 := match rest with
        | c2 :: r2 => if c2 = '+' || c2 = '-' then r2 else rest
        | [] => []
      !rest2.isEmpty && rest2.all is_ascii_digit
    else false

/-- Modelled from the spec: the acceptance condition of Rust
`<f64 as FromStr>::from_str` (the standard library is outside this
repository). Accepted inputs: an optional sign, then case-insensitively
`inf`, `infinity` or `nan`, or a mantissa (ASCII digits with at most one
dot, at least one digit overall) followed by an optional exponent part.
Every digit must be an ASCII digit; non-ASCII numerals are rejected. -/
def f64_from_str_ok (s : List Char) : Bool :=
  let body := match s with
    | c :: rest => if c = '+' || c = '-' then rest else s
    | [] => []
  let low := body.map Char.toLower
  if low = "inf".data || low = "infinity".data || low = "nan".data then true
  else
    let d1 := body.takeWhile is_ascii_digit
    let r1 := body.dropWhile is_ascii_digit
    match r1 with
    | '.' :: r2 =>
      let d2 := r2.takeWhile is_ascii_digit
      let r3 := r2.dropWhile is_ascii_digit
      (!d1.isEmpty || !d2.isEmpty) && exp_ok r3
    | _ => !d1.isEmpty && exp_ok r1

/-- `Scanner::new`: cursor at line 1, column 0, `start = current = 0`, empty
token and error sequences. (Rust receives a `String` and stores
`source.chars().collect::<Vec<char>>()`; the model takes the character list
directly.) -/
def Scanner.new (source : List Char) : Scanner :=
  { source := source, tokens := [], start := 0, current := 0,
    line := 1, column := 0, errors := [] }

/-- `Scanner::is_at_end`: `current >= source.len()`. -/
def Scanner.is_at_end (s : Scanner) : Bool := s.source.length ≤ s.current

/-- `Scanner::advance`: read `source[current]` (a panic when out of bounds),
then increment `current` and `column`. -/
def Scanner.advance (s : Scanner) : Except RustPanic (Char × Scanner) :=
  match s.source[s.current]? with
  | some c => .ok (c, { s with current := s.current + 1, column := s.column + 1 })
  | none => .error .indexOutOfBounds

/-- `Scanner::advance_peek`: if at end, false; else compare `source[current]`
with `expected` and consume it only on an exact match. The bounds check and
the subsequent (thereby safe) index are fused into one optional lookup. -/
def Scanner.advance_peek (s : Scanner) (expected : Char) : Bool × Scanner :=
  match s.source[s.current]? with
  | none => (false, s)
  | some next_char =>
    if next_char ≠ expected then (false, s)
    else (true, { s with current := s.current + 1, column := s.column + 1 })

/-- `Scanner::peek`: `'\u0000'` at end of input, else `source[current]` (the
bounds check and the thereby safe index are fused into one optional
lookup). -/
def Scanner.peek (s : Scanner) : Char := (s.source[s.current]?).getD '\u0000'

/-- `Scanner::peek_next`: `'\u0000'` if `current + 1` is out of range, else
`source[current + 1]`. -/
def Scanner.peek_next (s : Scanner) : Char := (s.source[s.current + 1]?).getD '\u0000'

/-- Rust slice `&source[lo..hi]` of a `Vec<char>`: panics unless
`lo <= hi <= len`. -/
def Scanner.slice (s : Scanner) (lo hi : Nat) : Except RustPanic (List Char) :=
  if lo ≤ hi ∧ hi ≤ s.source.length then .ok ((s.source.drop lo).take (hi - lo))
  else .error .indexOutOfBounds

/-- `Scanner::add_token`: collect `source[start..current]` as the lexeme and
push a token carrying the scanner's current `line`/`column`. -/
def Scanner.add_token (s : Scanner) (token_type : TokenType)
    (literal : Option Literal) : Except RustPanic Scanner :=
  match s.slice s.start s.current with
  | .error e => .error e
  | .ok text =>
    .ok { s with tokens :=
      s.tokens ++ [Token.new token_type text literal s.line s.column] }

/-- The `while` loop of `Scanner::construct_string`: consume characters until
a `'"'` or end of input, incrementing `line` (without resetting `column`) at
each newline. Fueled; callers pass fuel that is proved sufficient. -/
def Scanner.string_loop : Nat → Scanner → Except RustPanic Scanner
  | 0, s => .ok s
  | fuel + 1, s =>
    if s.peek != '"' && !s.is_at_end then
      match (if s.peek = '\n' then { s with line := s.line + 1 } else s).advance with
      | .ok (_, s2) => Scanner.string_loop fuel s2
      | .error e => .error e
    else .ok s

/-- `Scanner::construct_string`: loop to the closing quote; on end of input
push the "Unterminated string." error and return, otherwise consume the
closing quote, slice out the text strictly between the quotes and emit a
string token. -/
def Scanner.construct_string (s : Scanner) : Except RustPanic Scanner :=
  match Scanner.string_loop (s.source.length - s.current) s with
  | .error e => .error e
  | .ok s1 =>
    if s1.is_at_end then
      .ok { s1 with errors := s1.errors ++
        [{ message := "Unterminated string.", line := s1.line, column := s1.column }] }
    else
      match s1.advance with
      | .error e => .error e
      | .ok (_, s2) =>
        match s2.slice (s2.start + 1) (s2.current - 1) with
        | .error e => .error e
        | .ok value => s2.add_token TokenType.String (some (Literal.String value))

/-- The digit-run loop of `Scanner::construct_number`:
`while self.peek().is_numeric() { self.advance(); }`. Fueled. -/
def Scanner.digit_loop : Nat → Scanner → Except RustPanic Scanner
  | 0, s => .ok s
  | fuel + 1, s =>
    if rust_is_numeric s.peek then
      match s.advance with
      | .ok (_, s1) => Scanner.digit_loop fuel s1
      | .error e => .error e
    else .ok s

/-- `Scanner::construct_number`: a digit run, an optional fractional part
(entered only when `peek` is `'.'` and `peek_next` is numeric), then
`source[start..current]` parsed as `f64` with `unwrap` — a parse failure is
the `parseFail` panic. -/
def Scanner.construct_number (s : Scanner) : Except RustPanic Scanner :=
  match Scanner.digit_loop (s.source.length - s.current) s with
  | .error e => .error e
  | .ok s1 =>
    match (if s1.peek = '.' && rust_is_numeric s1.peek_next then
            match s1.advance with
            | Except.error e => Except.error e
            | Except.ok (_, sa) => Scanner.digit_loop (sa.source.length - sa.current) sa
          else Except.ok s1 : Except RustPanic Scanner) with
    | .error e => .error e
    | .ok s2 =>
      match s2.slice s2.start s2.current with
      | .error e => .error e
      | .ok text =>
        if f64_from_str_ok text then
          s2.add_token TokenType.Number (some (Literal.Number text))
        else .error .parseFail

/-- The identifier-run loop of `Scanner::construct_identifier`:
`while self.peek().is_alphanumeric() || self.peek() == '_' { ... }`. Fueled. -/
def Scanner.ident_loop : Nat → Scanner → Except RustPanic Scanner
  | 0, s => .ok s
  | fuel + 1, s =>
    if rust_is_alphanumeric s.peek || s.peek == '_' then
      match s.advance with
      | .ok (_, s1) => Scanner.ident_loop fuel s1
      | .error e => .error e
    else .ok s

/-- The inline `match text.as_str()` block of `Scanner::construct_identifier`:
the fixed keyword table, defaulting to an identifier. -/
def keyword_token_type (text : List Char) : TokenType :=
  if text = "and".data then TokenType.And
  else if text = "class".data then TokenType.Class
  else if text = "else".data then TokenType.Else
  else if text = "false".data then TokenType.False
  else if text = "for".data then TokenType.For
  else if text = "fun".data then TokenType.Fun
  else if text = "if".data then TokenType.If
  else if text = "nil".data then TokenType.Nil
  else if text = "or".data then TokenType.Or
  else if text = "print".data then TokenType.Print
  else if text = "return".data then TokenType.Return
  else if text = "super".data then TokenType.Super
  else if text = "this".data then TokenType.This
  else if text = "true".data then TokenType.True
  else if text = "var".data then TokenType.Var
  else if text = "while".data then TokenType.While
  else TokenType.Identifier

/-- The inline `match token_type` block of `Scanner::construct_identifier`:
only `true` / `false` / `nil` carry a literal. -/
def keyword_literal (token_type : TokenType) : Option Literal :=
  if token_type = TokenType.True then some (Literal.Boolean true)
  else if token_type = TokenType.False then some (Literal.Boolean false)
  else if token_type = TokenType.Nil then some Literal.Nil
  else none

/-- `Scanner::construct_identifier`: consume the alphanumeric/underscore run,
look the text up in the fixed keyword table (default: identifier), attach a
literal only for `true` / `false` / `nil`, and emit the token. -/
def Scanner.construct_identifier (s : Scanner) : Except RustPanic Scanner :=
  match Scanner.ident_loop (s.source.length - s.current) s with
  | .error e => .error e
  | .ok s1 =>
    match s1.slice s1.start s1.current with
    | .error e => .error e
    | .ok text =>
      s1.add_token (keyword_token_type text) (keyword_literal (keyword_token_type text))

/-- The line-comment loop inside `Scanner::scan_token`'s `'/'` arm:
`while self.peek() != '\n' && !self.is_at_end() { self.advance(); }`. Fueled. -/
def Scanner.comment_loop : Nat → Scanner → Except RustPanic Scanner
  | 0, s => .ok s
  | fuel + 1, s =>
    if s.peek != '\n' && !s.is_at_end then
      match s.advance with
      | .ok (_, s1) => Scanner.comment_loop fuel s1
      | .error e => .error e
    else .ok s

/-- `Scanner::scan_token`: consume one character and dispatch on its class.
The Rust `match` arms (literal characters, `'0'..='9'`, `'a'..='z' | 'A'..='Z'
| '_'`, catch-all) become a chained conditional in source order. -/
def Scanner.scan_token (s : Scanner) : Except RustPanic Scanner :=
  match s.advance with
  | .error e => .error e
  | .ok (current_char, s1) =>
    if current_char = '(' then s1.add_token TokenType.LeftParen none
    else if current_char = ')' then s1.add_token TokenType.RightParen none
    else if current_char = '{' then s1.add_token TokenType.LeftBrace none
    else if current_char = '}' then s1.add_token TokenType.RightBrace none
    else if current_char = ',' then s1.add_token TokenType.Comma none
    else if current_char = '.' then s1.add_token TokenType.Dot none
    else if current_char = '-' then s1.add_token TokenType.Minus none
    else if current_char = '+' then s1.add_token TokenType.Plus none
    else if current_char = ';' then s1.add_token TokenType.Semicolon none
    else if current_char = '*' then s1.add_token TokenType.Star none
    else if current_char = '!' then
      match s1.advance_peek '=' with
      | (true, s2) => s2.add_token TokenType.BangEqual none
      | (false, s2) => s2.add_token TokenType.Bang none
    else if current_char = '=' then
      match s1.advance_peek '=' with
      | (true, s2) => s2.add_token TokenType.EqualEqual none
      | (false, s2) => s2.add_token TokenType.Equal none
    else if current_char = '<' then
      match s1.advance_peek '=' with
      | (true, s2) => s2.add_token TokenType.LessEqual none
      | (false, s2) => s2.add_token TokenType.Less none
    else if current_char = '>' then
      match s1.advance_peek '=' with
      | (true, s2) => s2.add_token TokenType.GreaterEqual none
      | (false, s2) => s2.add_token TokenType.Greater none
    else if current_char = '/' then
      match s1.advance_peek '/' with
      | (true, s2) => Scanner.comment_loop (s2.source.length - s2.current) s2
      | (false, s2) => s2.add_token TokenType.Slash none
    else if current_char = ' ' ∨ current_char = '\r' ∨ current_char = '\t' then .ok s1
    else if current_char = '\n' then .ok { s1 with line := s1.line + 1, column := 0 }
    else if current_char = '"' then s1.construct_string
    else if '0' ≤ current_char ∧ current_char ≤ '9' then s1.construct_number
    else if ('a' ≤ current_char ∧ current_char ≤ 'z')
        ∨ ('A' ≤ current_char ∧ current_char ≤ 'Z')
        ∨ current_char = '_' then s1.construct_identifier
    else
      .ok { s1 with errors := s1.errors ++
        [{ message := "Unexpected character: " ++ current_char.toString,
           line := s1.line, column := s1.column }] }

/-- The `while !self.is_at_end()` loop of `Scanner::scan_tokens`: mark the
lexeme start (`start = current`) and scan one token, repeatedly. Fueled;
each successful `scan_token` from a non-end state strictly increases
`current`, so `source.length - current` units of fuel suffice. -/
def Scanner.scan_loop : Nat → Scanner → Except RustPanic Scanner
  | 0, s => .ok s
  | fuel + 1, s =>
    if s.is_at_end then .ok s
    else
      match Scanner.scan_token { s with start := s.current } with
      | .ok s1 => Scanner.scan_loop fuel s1
      | .error e => .error e

/-- `Scanner::scan_tokens`: run the scan loop to the end of input, then push
the end-of-input token with an empty lexeme at the final cursor position. -/
def Scanner.scan_tokens (s : Scanner) : Except RustPanic Scanner :=
  match Scanner.scan_loop (s.source.length - s.current) s with
  | .error e => .error e
  | .ok s1 =>
    .ok { s1 with tokens :=
      s1.tokens ++ [Token.new TokenType.Eof [] none s1.line s1.column] }

/-- Facts established by one dispatch step of the scanner (`scan_token` or one
of the extraction routines): source and lexeme start preserved, cursor
monotone and in bounds, tokens only appended, and no appended token is the
end-of-input token. -/
abbrev ScanStep (s s' : Scanner) : Prop :=
  s'.source = s.source ∧ s'.start = s.start ∧ s.current ≤ s'.current ∧
  s'.current ≤ s.source.length ∧
  ∃ ts, s'.tokens = s.tokens ++ ts ∧ ∀ t ∈ ts, t.token_type ≠ TokenType.Eof

/-- Facts established by one of the scanner's inner character-consuming loops:
like `ScanStep`, with tokens and errors untouched. -/
abbrev LoopOk (s s' : Scanner) : Prop :=
  s'.source = s.source ∧ s'.start = s.start ∧ s'.tokens = s.tokens ∧
  s'.errors = s.errors ∧ s.current ≤ s'.current ∧ s'.current ≤ s.source.length

/-- The ten single-character punctuation dispatch arms of `Scanner::scan_token`,
as a partial map from the character to the emitted token kind. -/
def punct_token_type (c : Char) : Option TokenType :=
  if c = '(' then some TokenType.LeftParen
  else if c = ')' then some TokenType.RightParen
  else if c = '{' then some TokenType.LeftBrace
  else if c = '}' then some TokenType.RightBrace
  else if c = ',' then some TokenType.Comma
  else if c = '.' then some TokenType.Dot
  else if c = '-' then some TokenType.Minus
  else if c = '+' then some TokenType.Plus
  else if c = ';' then some TokenType.Semicolon
  else if c = '*' then some TokenType.Star
  else none

/-- The token sequence the scanner emits for a run of single-character
punctuation lexemes starting at a given line/column: one token per character,
in source order, each reported at the column after its character. -/
def punct_tokens : List Char → Nat → Nat → List Token
  | [], _, _ => []
  | c :: rest, line, col =>
    Token.new ((punct_token_type c).getD TokenType.Eof) [c] none line (col + 1) ::
      punct_tokens rest line (col + 1)

/-- The scanner state after `scan_token` handles an operator-starter character
`c` (one of `!`, `=`, `<`, `>`): if the character after the starter is `=`,
both characters are consumed and the two-character token is emitted;
otherwise only the starter is consumed and the one-character token is
emitted. -/
def two_char_op_result (s : Scanner) (c : Char) (one two : TokenType) : Scanner :=
  if s.source[s.current + 1]? = some '=' then
    { s with
      start := s.current, current := s.current + 2, column := s.column + 2,
      tokens := s.tokens ++ [Token.new two [c, '='] none s.line (s.column + 2)] }
  else
    { s with
      start := s.current, current := s.current + 1, column := s.column + 1,
      tokens := s.tokens ++ [Token.new one [c] none s.line (s.column + 1)] }

theorem LoopOk.comp {a b c : Scanner} (h1 : LoopOk a b) (h2 : LoopOk b c) :
    LoopOk a c := by
  obtain ⟨e1, e2, e3, e4, e5, e6⟩ := h1
  obtain ⟨f1, f2, f3, f4, f5, f6⟩ := h2
  refine ⟨by rw [f1, e1], by rw [f2, e2], by rw [f3, e3], by rw [f4, e4],
    Nat.le_trans e5 f5, ?_⟩
  rw [e1] at f6
  exact f6

theorem LoopOk.toScanStep {a b : Scanner} (h : LoopOk a b) : ScanStep a b := by
  obtain ⟨e1, e2, e3, e4, e5, e6⟩ := h
  exact ⟨e1, e2, e5, e6, [], by simp [e3], by simp⟩

theorem ScanStep.compose {a b c : Scanner} (h1 : ScanStep a b) (h2 : ScanStep b c) :
    ScanStep a c := by
  obtain ⟨e1, e2, e3, e4, ts1, ht1, hn1⟩ := h1
  obtain ⟨f1, f2, f3, f4, ts2, ht2, hn2⟩ := h2
  refine ⟨by rw [f1, e1], by rw [f2, e2], Nat.le_trans e3 f3, by rwa [e1] at f4,
    ts1 ++ ts2, by rw [ht2, ht1, List.append_assoc], ?_⟩
  intro t ht
  rcases List.mem_append.mp ht with h | h
  · exact hn1 t h
  · exact hn2 t h

theorem Scanner.peek_of_getElem {s : Scanner} {c : Char}
    (h : s.source[s.current]? = some c) : s.peek = c := by
  simp [Scanner.peek, h]

theorem Scanner.peek_at_end {s : Scanner} (h : s.source.length ≤ s.current) :
    s.peek = '\u0000' := by
  simp [Scanner.peek, List.getElem?_eq_none h]

theorem Scanner.advance_ok {s : Scanner} {c : Char}
    (h : s.source[s.current]? = some c) :
    s.advance = .ok (c, { s with current := s.current + 1, column := s.column + 1 }) := by
  simp [Scanner.advance, h]

theorem Scanner.not_at_end_of_peek {s : Scanner} (h : s.peek ≠ '\u0000') :
    s.current < s.source.length := by
  by_contra hge
  exact h (Scanner.peek_at_end (by omega))

theorem Scanner.string_loop_spec (fuel : Nat) (s : Scanner)
    (h : s.current ≤ s.source.length) :
    ∃ s', Scanner.string_loop fuel s = .ok s' ∧ LoopOk s s' := by
  induction fuel generalizing s with
  | zero => exact ⟨s, rfl, rfl, rfl, rfl, rfl, Nat.le_refl _, h⟩
  | succ fuel ih =>
    rw [Scanner.string_loop]
    by_cases hg : (s.peek != '"' && !s.is_at_end) = true
    · rw [if_pos hg]
      have hlt : s.current < s.source.length := by
        have h2 := hg
        simp [Scanner.is_at_end] at h2
        omega
      have hget : s.source[s.current]? = some (s.source.get ⟨s.current, hlt⟩) :=
        List.getElem?_eq_getElem hlt
      by_cases hn : s.peek = '\n'
      · rw [if_pos hn, Scanner.advance_ok (s := { s with line := s.line + 1 }) hget]
        obtain ⟨s', hrun, hok⟩ :=
          ih { s with line := s.line + 1, current := s.current + 1, column := s.column + 1 } hlt
        refine ⟨s', hrun, LoopOk.comp
          (b := { s with line := s.line + 1, current := s.current + 1, column := s.column + 1 })
          ⟨rfl, rfl, rfl, rfl, Nat.le_succ _, hlt⟩ hok⟩
      · rw [if_neg hn, Scanner.advance_ok (s := s) hget]
        obtain ⟨s', hrun, hok⟩ :=
          ih { s with current := s.current + 1, column := s.column + 1 } hlt
        refine ⟨s', hrun, LoopOk.comp
          (b := { s with current := s.current + 1, column := s.column + 1 })
          ⟨rfl, rfl, rfl, rfl, Nat.le_succ _, hlt⟩ hok⟩
    · rw [if_neg hg]
      exact ⟨s, rfl, rfl, rfl, rfl, rfl, Nat.le_refl _, h⟩

theorem Scanner.digit_loop_spec (fuel : Nat) (s : Scanner)
    (h : s.current ≤ s.source.length) :
    ∃ s', Scanner.digit_loop fuel s = .ok s' ∧ LoopOk s s' := by
  induction fuel generalizing s with
  | zero => exact ⟨s, rfl, rfl, rfl, rfl, rfl, Nat.le_refl _, h⟩
  | succ fuel ih =>
    rw [Scanner.digit_loop]
    by_cases hg : rust_is_numeric s.peek = true
    · rw [if_pos hg]
      have hlt : s.current < s.source.length :=
        Scanner.not_at_end_of_peek (by rintro hz; rw [hz] at hg; exact absurd hg (by decide))
      have hget : s.source[s.current]? = some (s.source.get ⟨s.current, hlt⟩) :=
        List.getElem?_eq_getElem hlt
      rw [Scanner.advance_ok hget]
      obtain ⟨s', hrun, hok⟩ :=
        ih { s with current := s.current + 1, column := s.column + 1 } hlt
      refine ⟨s', hrun, LoopOk.comp
        (b := { s with current := s.current + 1, column := s.column + 1 })
        ⟨rfl, rfl, rfl, rfl, Nat.le_succ _, hlt⟩ hok⟩
    · rw [if_neg hg]
      exact ⟨s, rfl, rfl, rfl, rfl, rfl, Nat.le_refl _, h⟩

theorem Scanner.ident_loop_spec (fuel : Nat) (s : Scanner)
    (h : s.current ≤ s.source.length) :
    ∃ s', Scanner.ident_loop fuel s = .ok s' ∧ LoopOk s s' := by
  induction fuel generalizing s with
  | zero => exact ⟨s, rfl, rfl, rfl, rfl, rfl, Nat.le_refl _, h⟩
  | succ fuel ih =>
    rw [Scanner.ident_loop]
    by_cases hg : (rust_is_alphanumeric s.peek || s.peek == '_') = true
    · rw [if_pos hg]
      have hlt : s.current < s.source.length :=
        Scanner.not_at_end_of_peek (by rintro hz; rw [hz] at hg; exact absurd hg (by decide))
      have hget : s.source[s.current]? = some (s.source.get ⟨s.current, hlt⟩) :=
        List.getElem?_eq_getElem hlt
      rw [Scanner.advance_ok hget]
      obtain ⟨s', hrun, hok⟩ :=
        ih { s with current := s.current + 1, column := s.column + 1 } hlt
      refine ⟨s', hrun, LoopOk.comp
        (b := { s with current := s.current + 1, column := s.column + 1 })
        ⟨rfl, rfl, rfl, rfl, Nat.le_succ _, hlt⟩ hok⟩
    · rw [if_neg hg]
      exact ⟨s, rfl, rfl, rfl, rfl, rfl, Nat.le_refl _, h⟩

theorem Scanner.comment_loop_spec (fuel : Nat) (s : Scanner)
    (h : s.current ≤ s.source.length) :
    ∃ s', Scanner.comment_loop fuel s = .ok s' ∧ LoopOk s s' := by
  induction fuel generalizing s with
  | zero => exact ⟨s, rfl, rfl, rfl, rfl, rfl, Nat.le_refl _, h⟩
  | succ fuel ih =>
    rw [Scanner.comment_loop]
    by_cases hg : (s.peek != '\n' && !s.is_at_end) = true
    · rw [if_pos hg]
      have hlt : s.current < s.source.length := by
        have h2 := hg
        simp [Scanner.is_at_end] at h2
        omega
      have hget : s.source[s.current]? = some (s.source.get ⟨s.current, hlt⟩) :=
        List.getElem?_eq_getElem hlt
      rw [Scanner.advance_ok hget]
      obtain ⟨s', hrun, hok⟩ :=
        ih { s with current := s.current + 1, column := s.column + 1 } hlt
      refine ⟨s', hrun, LoopOk.comp
        (b := { s with current := s.current + 1, column := s.column + 1 })
        ⟨rfl, rfl, rfl, rfl, Nat.le_succ _, hlt⟩ hok⟩
    · rw [if_neg hg]
      exact ⟨s, rfl, rfl, rfl, rfl, rfl, Nat.le_refl _, h⟩

theorem Scanner.add_token_ok {s : Scanner} (tt : TokenType) (lit : Option Literal)
    (h1 : s.start ≤ s.current) (h2 : s.current ≤ s.source.length) :
    s.add_token tt lit = .ok { s with tokens := s.tokens ++
      [Token.new tt ((s.source.drop s.start).take (s.current - s.start)) lit
        s.line s.column] } := by
  rw [Scanner.add_token, Scanner.slice, if_pos ⟨h1, h2⟩]

theorem Scanner.advance_peek_spec (expected : Char) {s : Scanner}
    (h : s.current ≤ s.source.length) :
    ∃ b s', s.advance_peek expected = (b, s') ∧ s'.source = s.source ∧
      s'.start = s.start ∧ s'.tokens = s.tokens ∧ s'.errors = s.errors ∧
      s.current ≤ s'.current ∧ s'.current ≤ s.source.length := by
  cases hx : s.source[s.current]? with
  | none =>
    refine ⟨false, s, ?_, rfl, rfl, rfl, rfl, Nat.le_refl _, h⟩
    rw [Scanner.advance_peek, hx]
  | some c =>
    have hlt : s.current < s.source.length := (List.getElem?_eq_some.mp hx).1
    by_cases hc : c ≠ expected
    · refine ⟨false, s, ?_, rfl, rfl, rfl, rfl, Nat.le_refl _, h⟩
      simp only [Scanner.advance_peek, hx]
      rw [if_pos hc]
    · refine ⟨true, { s with current := s.current + 1, column := s.column + 1 },
        ?_, rfl, rfl, rfl, rfl, Nat.le_succ _, hlt⟩
      simp only [Scanner.advance_peek, hx]
      rw [if_neg hc]

theorem keyword_token_type_ne_eof (text : List Char) :
    keyword_token_type text ≠ TokenType.Eof := by
  unfold keyword_token_type
  by_cases h1 : text = "and".data
  · rw [if_pos h1]; decide
  rw [if_neg h1]
  by_cases h2 : text = "class".data
  · rw [if_pos h2]; decide
  rw [if_neg h2]
  by_cases h3 : text = "else".data
  · rw [if_pos h3]; decide
  rw [if_neg h3]
  by_cases h4 : text = "false".data
  · rw [if_pos h4]; decide
  rw [if_neg h4]
  by_cases h5 : text = "for".data
  · rw [if_pos h5]; decide
  rw [if_neg h5]
  by_cases h6 : text = "fun".data
  · rw [if_pos h6]; decide
  rw [if_neg h6]
  by_cases h7 : text = "if".data
  · rw [if_pos h7]; decide
  rw [if_neg h7]
  by_cases h8 : text = "nil".data
  · rw [if_pos h8]; decide
  rw [if_neg h8]
  by_cases h9 : text = "or".data
  · rw [if_pos h9]; decide
  rw [if_neg h9]
  by_cases h10 : text = "print".data
  · rw [if_pos h10]; decide
  rw [if_neg h10]
  by_cases h11 : text = "return".data
  · rw [if_pos h11]; decide
  rw [if_neg h11]
  by_cases h12 : text = "super".data
  · rw [if_pos h12]; decide
  rw [if_neg h12]
  by_cases h13 : text = "this".data
  · rw [if_pos h13]; decide
  rw [if_neg h13]
  by_cases h14 : text = "true".data
  · rw [if_pos h14]; decide
  rw [if_neg h14]
  by_cases h15 : text = "var".data
  · rw [if_pos h15]; decide
  rw [if_neg h15]
  by_cases h16 : text = "while".data
  · rw [if_pos h16]; decide
  rw [if_neg h16]
  decide

theorem Scanner.construct_string_step {s : Scanner} (hs : s.current = s.start + 1)
    (h : s.current ≤ s.source.length) :
    ∃ s', s.construct_string = .ok s' ∧ ScanStep s s' := by
  obtain ⟨s1, hrun, l1, l2, l3, l4, l5, l6⟩ :=
    Scanner.string_loop_spec (s.source.length - s.current) s h
  simp only [Scanner.construct_string, hrun]
  by_cases he : s1.is_at_end
  · rw [if_pos he]
    exact ⟨_, rfl, l1, l2, l5, l6, [], by simp [l3], by simp⟩
  · rw [if_neg he]
    have hlt1 : s1.current < s1.source.length := by
      simp [Scanner.is_at_end] at he
      omega
    have hlen : s1.source.length = s.source.length := by rw [l1]
    simp only [Scanner.advance_ok (List.getElem?_eq_getElem hlt1)]
    split
    next e heq =>
      exfalso
      rw [Scanner.slice] at heq
      dsimp only at heq
      rw [if_pos ⟨by omega, by omega⟩] at heq
      exact Except.noConfusion heq
    next value heq =>
      rw [Scanner.add_token_ok (s := { s1 with current := s1.current + 1, column := s1.column + 1 })
        TokenType.String (some (Literal.String value))
        (show s1.start ≤ s1.current + 1 from by omega)
        (show s1.current + 1 ≤ s1.source.length from hlt1)]
      refine ⟨_, rfl, l1, l2, show s.current ≤ s1.current + 1 from by omega,
        show s1.current + 1 ≤ s.source.length from by omega,
        [Token.new TokenType.String ((s1.source.drop s1.start).take (s1.current + 1 - s1.start))
          (some (Literal.String value)) s1.line (s1.column + 1)],
        by simp [l3], by simp [Token.new]⟩

theorem Scanner.construct_number_step {s : Scanner} (h1 : s.start ≤ s.current)
    (h : s.current ≤ s.source.length) :
    s.construct_number = .error .parseFail ∨
      ∃ s', s.construct_number = .ok s' ∧ ScanStep s s' := by
  obtain ⟨s1, hrun, l1, l2, l3, l4, l5, l6⟩ :=
    Scanner.digit_loop_spec (s.source.length - s.current) s h
  have hlen1 : s1.source.length = s.source.length := by rw [l1]
  simp only [Scanner.construct_number, hrun]
  have hstep : ∃ s2, (if s1.peek = '.' && rust_is_numeric s1.peek_next then
      match s1.advance with
      | Except.error e => Except.error e
      | Except.ok (_, sa) => Scanner.digit_loop (sa.source.length - sa.current) sa
    else Except.ok s1 : Except RustPanic Scanner) = .ok s2 ∧ LoopOk s1 s2 := by
    by_cases hdot : (s1.peek = '.' && rust_is_numeric s1.peek_next) = true
    · rw [if_pos hdot]
      have hdot1 : s1.peek = '.' := by
        have h2 := hdot
        simp at h2
        exact h2.1
      have hlt1 : s1.current < s1.source.length :=
        Scanner.not_at_end_of_peek (by rw [hdot1]; decide)
      simp only [Scanner.advance_ok (List.getElem?_eq_getElem hlt1)]
      obtain ⟨s2, hrun2, k⟩ := Scanner.digit_loop_spec
        (s1.source.length - (s1.current + 1))
        { s1 with current := s1.current + 1, column := s1.column + 1 }
        (show s1.current + 1 ≤ s1.source.length from hlt1)
      refine ⟨s2, hrun2, LoopOk.comp
        (b := { s1 with current := s1.current + 1, column := s1.column + 1 })
        ⟨rfl, rfl, rfl, rfl, Nat.le_succ _, hlt1⟩ k⟩
    · rw [if_neg hdot]
      exact ⟨s1, rfl, rfl, rfl, rfl, rfl, Nat.le_refl _, by omega⟩
  obtain ⟨s2, hfrac, k1, k2, k3, k4, k5, k6⟩ := hstep
  have hlen2 : s2.source.length = s1.source.length := by rw [k1]
  simp only [hfrac]
  split
  next e heq =>
    exfalso
    rw [Scanner.slice, if_pos ⟨by omega, by omega⟩] at heq
    exact Except.noConfusion heq
  next text heq =>
    by_cases hparse : f64_from_str_ok text = true
    · rw [if_pos hparse,
        Scanner.add_token_ok TokenType.Number (some (Literal.Number text))
          (by omega) (by omega)]
      refine Or.inr ⟨_, rfl, by rw [k1, l1], by rw [k2, l2],
        show s.current ≤ s2.current from by omega,
        show s2.current ≤ s.source.length from by omega,
        [Token.new TokenType.Number ((s2.source.drop s2.start).take (s2.current - s2.start))
          (some (Literal.Number text)) s2.line s2.column],
        by simp [k3, l3], by simp [Token.new]⟩
    · rw [if_neg hparse]
      exact Or.inl rfl

theorem Scanner.construct_identifier_step {s : Scanner} (h1 : s.start ≤ s.current)
    (h : s.current ≤ s.source.length) :
    ∃ s', s.construct_identifier = .ok s' ∧ ScanStep s s' := by
  obtain ⟨s1, hrun, l1, l2, l3, l4, l5, l6⟩ :=
    Scanner.ident_loop_spec (s.source.length - s.current) s h
  have hlen1 : s1.source.length = s.source.length := by rw [l1]
  simp only [Scanner.construct_identifier, hrun]
  split
  next e heq =>
    exfalso
    rw [Scanner.slice, if_pos ⟨by omega, by omega⟩] at heq
    exact Except.noConfusion heq
  next text heq =>
    rw [Scanner.add_token_ok (keyword_token_type text)
      (keyword_literal (keyword_token_type text)) (by omega) (by omega)]
    refine ⟨_, rfl, l1, l2, show s.current ≤ s1.current from by omega,
      show s1.current ≤ s.source.length from by omega,
      [Token.new (keyword_token_type text)
        ((s1.source.drop s1.start).take (s1.current - s1.start))
        (keyword_literal (keyword_token_type text)) s1.line s1.column],
      by simp [l3], ?_⟩
    simpa [Token.new] using keyword_token_type_ne_eof text

theorem Scanner.scan_token_spec {s : Scanner} (hse : s.start = s.current)
    (hlt : s.current < s.source.length) :
    Scanner.scan_token s = .error .parseFail ∨
      ∃ s', Scanner.scan_token s = .ok s' ∧ ScanStep s s' ∧ s.current < s'.current := by
  obtain ⟨c, hgetc⟩ : ∃ c, s.source[s.current]? = some c :=
    ⟨_, List.getElem?_eq_getElem hlt⟩
  simp only [Scanner.scan_token, Scanner.advance_ok hgetc]
  by_cases hc1 : c = '('
  · rw [if_pos hc1, Scanner.add_token_ok (s := { s with current := s.current + 1, column := s.column + 1 })
      TokenType.LeftParen none
      (show s.start ≤ s.current + 1 from by omega)
      (show s.current + 1 ≤ s.source.length from hlt)]
    exact Or.inr ⟨_, rfl, ⟨rfl, rfl, Nat.le_succ _, hlt,
      [Token.new TokenType.LeftParen
        ((s.source.drop s.start).take (s.current + 1 - s.start)) none s.line (s.column + 1)],
      rfl, by simp [Token.new]⟩, Nat.lt_succ_self _⟩
  rw [if_neg hc1]
  by_cases hc2 : c = ')'
  · rw [if_pos hc2, Scanner.add_token_ok (s := { s with current := s.current + 1, column := s.column + 1 })
      TokenType.RightParen none
      (show s.start ≤ s.current + 1 from by omega)
      (show s.current + 1 ≤ s.source.length from hlt)]
    exact Or.inr ⟨_, rfl, ⟨rfl, rfl, Nat.le_succ _, hlt,
      [Token.new TokenType.RightParen
        ((s.source.drop s.start).take (s.current + 1 - s.start)) none s.line (s.column + 1)],
      rfl, by simp [Token.new]⟩, Nat.lt_succ_self _⟩
  rw [if_neg hc2]
  by_cases hc3 : c = '{'
  · rw [if_pos hc3, Scanner.add_token_ok (s := { s with current := s.current + 1, column := s.column + 1 })
      TokenType.LeftBrace none
      (show s.start ≤ s.current + 1 from by omega)
      (show s.current + 1 ≤ s.source.length from hlt)]
    exact Or.inr ⟨_, rfl, ⟨rfl, rfl, Nat.le_succ _, hlt,
      [Token.new TokenType.LeftBrace
        ((s.source.drop s.start).take (s.current + 1 - s.start)) none s.line (s.column + 1)],
      rfl, by simp [Token.new]⟩, Nat.lt_succ_self _⟩
  rw [if_neg hc3]
  by_cases hc4 : c = '}'
  · rw [if_pos hc4, Scanner.add_token_ok (s := { s with current := s.current + 1, column := s.column + 1 })
      TokenType.RightBrace none
      (show s.start ≤ s.current + 1 from by omega)
      (show s.current + 1 ≤ s.source.length from hlt)]
    exact Or.inr ⟨_, rfl, ⟨rfl, rfl, Nat.le_succ _, hlt,
      [Token.new TokenType.RightBrace
        ((s.source.drop s.start).take (s.current + 1 - s.start)) none s.line (s.column + 1)],
      rfl, by simp [Token.new]⟩, Nat.lt_succ_self _⟩
  rw [if_neg hc4]
  by_cases hc5 : c = ','
  · rw [if_pos hc5, Scanner.add_token_ok (s := { s with current := s.current + 1, column := s.column + 1 })
      TokenType.Comma none
      (show s.start ≤ s.current + 1 from by omega)
      (show s.current + 1 ≤ s.source.length from hlt)]
    exact Or.inr ⟨_, rfl, ⟨rfl, rfl, Nat.le_succ _, hlt,
      [Token.new TokenType.Comma
        ((s.source.drop s.start).take (s.current + 1 - s.start)) none s.line (s.column + 1)],
      rfl, by simp [Token.new]⟩, Nat.lt_succ_self _⟩
  rw [if_neg hc5]
  by_cases hc6 : c = '.'
  · rw [if_pos hc6, Scanner.add_token_ok (s := { s with current := s.current + 1, column := s.column + 1 })
      TokenType.Dot none
      (show s.start ≤ s.current + 1 from by omega)
      (show s.current + 1 ≤ s.source.length from hlt)]
    exact Or.inr ⟨_, rfl, ⟨rfl, rfl, Nat.le_succ _, hlt,
      [Token.new TokenType.Dot
        ((s.source.drop s.start).take (s.current + 1 - s.start)) none s.line (s.column + 1)],
      rfl, by simp [Token.new]⟩, Nat.lt_succ_self _⟩
  rw [if_neg hc6]
  by_cases hc7 : c = '-'
  · rw [if_pos hc7, Scanner.add_token_ok (s := { s with current := s.current + 1, column := s.column + 1 })
      TokenType.Minus none
      (show s.start ≤ s.current + 1 from by omega)
      (show s.current + 1 ≤ s.source.length from hlt)]
    exact Or.inr ⟨_, rfl, ⟨rfl, rfl, Nat.le_succ _, hlt,
      [Token.new TokenType.Minus
        ((s.source.drop s.start).take (s.current + 1 - s.start)) none s.line (s.column + 1)],
      rfl, by simp [Token.new]⟩, Nat.lt_succ_self _⟩
  rw [if_neg hc7]
  by_cases hc8 : c = '+'
  · rw [if_pos hc8, Scanner.add_token_ok (s := { s with current := s.current + 1, column := s.column + 1 })
      TokenType.Plus none
      (show s.start ≤ s.current + 1 from by omega)
      (show s.current + 1 ≤ s.source.length from hlt)]
    exact Or.inr ⟨_, rfl, ⟨rfl, rfl, Nat.le_succ _, hlt,
      [Token.new TokenType.Plus
        ((s.source.drop s.start).take (s.current + 1 - s.start)) none s.line (s.column + 1)],
      rfl, by simp [Token.new]⟩, Nat.lt_succ_self _⟩
  rw [if_neg hc8]
  by_cases hc9 : c = ';'
  · rw [if_pos hc9, Scanner.add_token_ok (s := { s with current := s.current + 1, column := s.column + 1 })
      TokenType.Semicolon none
      (show s.start ≤ s.current + 1 from by omega)
      (show s.current + 1 ≤ s.source.length from hlt)]
    exact Or.inr ⟨_, rfl, ⟨rfl, rfl, Nat.le_succ _, hlt,
      [Token.new TokenType.Semicolon
        ((s.source.drop s.start).take (s.current + 1 - s.start)) none s.line (s.column + 1)],
      rfl, by simp [Token.new]⟩, Nat.lt_succ_self _⟩
  rw [if_neg hc9]
  by_cases hc10 : c = '*'
  · rw [if_pos hc10, Scanner.add_token_ok (s := { s with current := s.current + 1, column := s.column + 1 })
      TokenType.Star none
      (show s.start ≤ s.current + 1 from by omega)
      (show s.current + 1 ≤ s.source.length from hlt)]
    exact Or.inr ⟨_, rfl, ⟨rfl, rfl, Nat.le_succ _, hlt,
      [Token.new TokenType.Star
        ((s.source.drop s.start).take (s.current + 1 - s.start)) none s.line (s.column + 1)],
      rfl, by simp [Token.new]⟩, Nat.lt_succ_self _⟩
  rw [if_neg hc10]
  by_cases hc11 : c = '!'
  · rw [if_pos hc11]
    obtain ⟨b, s2, hap, p1, p2, p3, p4, p5, p6⟩ :=
      Scanner.advance_peek_spec '=' (s := { s with current := s.current + 1, column := s.column + 1 })
        (show s.current + 1 ≤ s.source.length from hlt)
    have p1a : s2.source = s.source := p1
    have p2a : s2.start = s.start := p2
    have p3a : s2.tokens = s.tokens := p3
    have p5a : s.current + 1 ≤ s2.current := p5
    have p6a : s2.current ≤ s.source.length := p6
    have hl2 : s2.source.length = s.source.length := by rw [p1a]
    cases b
    · simp only [hap]
      rw [Scanner.add_token_ok TokenType.Bang none
        (show s2.start ≤ s2.current from by omega)
        (show s2.current ≤ s2.source.length from by omega)]
      refine Or.inr ⟨_, rfl, ⟨p1a, p2a, show s.current ≤ s2.current from by omega, p6a,
        [Token.new TokenType.Bang
          ((s2.source.drop s2.start).take (s2.current - s2.start)) none s2.line s2.column],
        show s2.tokens ++ _ = s.tokens ++ _ from by rw [p3a], by simp [Token.new]⟩,
        show s.current < s2.current from by omega⟩
    · simp only [hap]
      rw [Scanner.add_token_ok TokenType.BangEqual none
        (show s2.start ≤ s2.current from by omega)
        (show s2.current ≤ s2.source.length from by omega)]
      refine Or.inr ⟨_, rfl, ⟨p1a, p2a, show s.current ≤ s2.current from by omega, p6a,
        [Token.new TokenType.BangEqual
          ((s2.source.drop s2.start).take (s2.current - s2.start)) none s2.line s2.column],
        show s2.tokens ++ _ = s.tokens ++ _ from by rw [p3a], by simp [Token.new]⟩,
        show s.current < s2.current from by omega⟩
  rw [if_neg hc11]
  by_cases hc12 : c = '='
  · rw [if_pos hc12]
    obtain ⟨b, s2, hap, p1, p2, p3, p4, p5, p6⟩ :=
      Scanner.advance_peek_spec '=' (s := { s with current := s.current + 1, column := s.column + 1 })
        (show s.current + 1 ≤ s.source.length from hlt)
    have p1a : s2.source = s.source := p1
    have p2a : s2.start = s.start := p2
    have p3a : s2.tokens = s.tokens := p3
    have p5a : s.current + 1 ≤ s2.current := p5
    have p6a : s2.current ≤ s.source.length := p6
    have hl2 : s2.source.length = s.source.length := by rw [p1a]
    cases b
    · simp only [hap]
      rw [Scanner.add_token_ok TokenType.Equal none
        (show s2.start ≤ s2.current from by omega)
        (show s2.current ≤ s2.source.length from by omega)]
      refine Or.inr ⟨_, rfl, ⟨p1a, p2a, show s.current ≤ s2.current from by omega, p6a,
        [Token.new TokenType.Equal
          ((s2.source.drop s2.start).take (s2.current - s2.start)) none s2.line s2.column],
        show s2.tokens ++ _ = s.tokens ++ _ from by rw [p3a], by simp [Token.new]⟩,
        show s.current < s2.current from by omega⟩
    · simp only [hap]
      rw [Scanner.add_token_ok TokenType.EqualEqual none
        (show s2.start ≤ s2.current from by omega)
        (show s2.current ≤ s2.source.length from by omega)]
      refine Or.inr ⟨_, rfl, ⟨p1a, p2a, show s.current ≤ s2.current from by omega, p6a,
        [Token.new TokenType.EqualEqual
          ((s2.source.drop s2.start).take (s2.current - s2.start)) none s2.line s2.column],
        show s2.tokens ++ _ = s.tokens ++ _ from by rw [p3a], by simp [Token.new]⟩,
        show s.current < s2.current from by omega⟩
  rw [if_neg hc12]
  by_cases hc13 : c = '<'
  · rw [if_pos hc13]
    obtain ⟨b, s2, hap, p1, p2, p3, p4, p5, p6⟩ :=
      Scanner.advance_peek_spec '=' (s := { s with current := s.current + 1, column := s.column + 1 })
        (show s.current + 1 ≤ s.source.length from hlt)
    have p1a : s2.source = s.source := p1
    have p2a : s2.start = s.start := p2
    have p3a : s2.tokens = s.tokens := p3
    have p5a : s.current + 1 ≤ s2.current := p5
    have p6a : s2.current ≤ s.source.length := p6
    have hl2 : s2.source.length = s.source.length := by rw [p1a]
    cases b
    · simp only [hap]
      rw [Scanner.add_token_ok TokenType.Less none
        (show s2.start ≤ s2.current from by omega)
        (show s2.current ≤ s2.source.length from by omega)]
      refine Or.inr ⟨_, rfl, ⟨p1a, p2a, show s.current ≤ s2.current from by omega, p6a,
        [Token.new TokenType.Less
          ((s2.source.drop s2.start).take (s2.current - s2.start)) none s2.line s2.column],
        show s2.tokens ++ _ = s.tokens ++ _ from by rw [p3a], by simp [Token.new]⟩,
        show s.current < s2.current from by omega⟩
    · simp only [hap]
      rw [Scanner.add_token_ok TokenType.LessEqual none
        (show s2.start ≤ s2.current from by omega)
        (show s2.current ≤ s2.source.length from by omega)]
      refine Or.inr ⟨_, rfl, ⟨p1a, p2a, show s.current ≤ s2.current from by omega, p6a,
        [Token.new TokenType.LessEqual
          ((s2.source.drop s2.start).take (s2.current - s2.start)) none s2.line s2.column],
        show s2.tokens ++ _ = s.tokens ++ _ from by rw [p3a], by simp [Token.new]⟩,
        show s.current < s2.current from by omega⟩
  rw [if_neg hc13]
  by_cases hc14 : c = '>'
  · rw [if_pos hc14]
    obtain ⟨b, s2, hap, p1, p2, p3, p4, p5, p6⟩ :=
      Scanner.advance_peek_spec '=' (s := { s with current := s.current + 1, column := s.column + 1 })
        (show s.current + 1 ≤ s.source.length from hlt)
    have p1a : s2.source = s.source := p1
    have p2a : s2.start = s.start := p2
    have p3a : s2.tokens = s.tokens := p3
    have p5a : s.current + 1 ≤ s2.current := p5
    have p6a : s2.current ≤ s.source.length := p6
    have hl2 : s2.source.length = s.source.length := by rw [p1a]
    cases b
    · simp only [hap]
      rw [Scanner.add_token_ok TokenType.Greater none
        (show s2.start ≤ s2.current from by omega)
        (show s2.current ≤ s2.source.length from by omega)]
      refine Or.inr ⟨_, rfl, ⟨p1a, p2a, show s.current ≤ s2.current from by omega, p6a,
        [Token.new TokenType.Greater
          ((s2.source.drop s2.start).take (s2.current - s2.start)) none s2.line s2.column],
        show s2.tokens ++ _ = s.tokens ++ _ from by rw [p3a], by simp [Token.new]⟩,
        show s.current < s2.current from by omega⟩
    · simp only [hap]
      rw [Scanner.add_token_ok TokenType.GreaterEqual none
        (show s2.start ≤ s2.current from by omega)
        (show s2.current ≤ s2.source.length from by omega)]
      refine Or.inr ⟨_, rfl, ⟨p1a, p2a, show s.current ≤ s2.current from by omega, p6a,
        [Token.new TokenType.GreaterEqual
          ((s2.source.drop s2.start).take (s2.current - s2.start)) none s2.line s2.column],
        show s2.tokens ++ _ = s.tokens ++ _ from by rw [p3a], by simp [Token.new]⟩,
        show s.current < s2.current from by omega⟩
  rw [if_neg hc14]
  by_cases hc15 : c = '/'
  · rw [if_pos hc15]
    obtain ⟨b, s2, hap, p1, p2, p3, p4, p5, p6⟩ :=
      Scanner.advance_peek_spec '/' (s := { s with current := s.current + 1, column := s.column + 1 })
        (show s.current + 1 ≤ s.source.length from hlt)
    have p1a : s2.source = s.source := p1
    have p2a : s2.start = s.start := p2
    have p3a : s2.tokens = s.tokens := p3
    have p5a : s.current + 1 ≤ s2.current := p5
    have p6a : s2.current ≤ s.source.length := p6
    have hl2 : s2.source.length = s.source.length := by rw [p1a]
    cases b
    · simp only [hap]
      rw [Scanner.add_token_ok TokenType.Slash none
        (show s2.start ≤ s2.current from by omega)
        (show s2.current ≤ s2.source.length from by omega)]
      refine Or.inr ⟨_, rfl, ⟨p1a, p2a, show s.current ≤ s2.current from by omega, p6a,
        [Token.new TokenType.Slash
          ((s2.source.drop s2.start).take (s2.current - s2.start)) none s2.line s2.column],
        show s2.tokens ++ _ = s.tokens ++ _ from by rw [p3a], by simp [Token.new]⟩,
        show s.current < s2.current from by omega⟩
    · simp only [hap]
      obtain ⟨s3, hrun3, q1, q2, q3, q4, q5, q6⟩ :=
        Scanner.comment_loop_spec (s2.source.length - s2.current) s2
          (show s2.current ≤ s2.source.length from by omega)
      refine Or.inr ⟨s3, hrun3, ⟨by rw [q1, p1a], by rw [q2, p2a],
        show s.current ≤ s3.current from by omega,
        show s3.current ≤ s.source.length from by omega,
        [], by rw [q3, p3a, List.append_nil], by simp⟩,
        show s.current < s3.current from by omega⟩
  rw [if_neg hc15]
  by_cases hc16 : c = ' ' ∨ c = '\r' ∨ c = '\t'
  · rw [if_pos hc16]
    exact Or.inr ⟨_, rfl, ⟨rfl, rfl, Nat.le_succ _, hlt, [], by simp, by simp⟩,
      Nat.lt_succ_self _⟩
  rw [if_neg hc16]
  by_cases hc17 : c = '\n'
  · rw [if_pos hc17]
    exact Or.inr ⟨_, rfl, ⟨rfl, rfl, Nat.le_succ _, hlt, [], by simp, by simp⟩,
      Nat.lt_succ_self _⟩
  rw [if_neg hc17]
  by_cases hc18 : c = '"'
  · rw [if_pos hc18]
    obtain ⟨s', hcs, q1, q2, q3, q4, qts, qt, qn⟩ :=
      Scanner.construct_string_step (s := { s with current := s.current + 1, column := s.column + 1 })
        (show s.current + 1 = s.start + 1 from by omega)
        (show s.current + 1 ≤ s.source.length from hlt)
    have q3a : s.current + 1 ≤ s'.current := q3
    exact Or.inr ⟨s', hcs, ScanStep.compose (b := { s with current := s.current + 1, column := s.column + 1 })
      ⟨rfl, rfl, Nat.le_succ _, hlt, [], by simp, by simp⟩
      ⟨q1, q2, q3, q4, qts, qt, qn⟩, by omega⟩
  rw [if_neg hc18]
  by_cases hc19 : '0' ≤ c ∧ c ≤ '9'
  · rw [if_pos hc19]
    rcases Scanner.construct_number_step (s := { s with current := s.current + 1, column := s.column + 1 })
        (show s.start ≤ s.current + 1 from by omega)
        (show s.current + 1 ≤ s.source.length from hlt) with
      herr | ⟨s', hok, q1, q2, q3, q4, qts, qt, qn⟩
    · exact Or.inl herr
    · have q3a : s.current + 1 ≤ s'.current := q3
      exact Or.inr ⟨s', hok, ScanStep.compose (b := { s with current := s.current + 1, column := s.column + 1 })
        ⟨rfl, rfl, Nat.le_succ _, hlt, [], by simp, by simp⟩
        ⟨q1, q2, q3, q4, qts, qt, qn⟩, by omega⟩
  rw [if_neg hc19]
  by_cases hc20 : ('a' ≤ c ∧ c ≤ 'z') ∨ ('A' ≤ c ∧ c ≤ 'Z') ∨ c = '_'
  · rw [if_pos hc20]
    obtain ⟨s', hok, q1, q2, q3, q4, qts, qt, qn⟩ :=
      Scanner.construct_identifier_step (s := { s with current := s.current + 1, column := s.column + 1 })
        (show s.start ≤ s.current + 1 from by omega)
        (show s.current + 1 ≤ s.source.length from hlt)
    have q3a : s.current + 1 ≤ s'.current := q3
    exact Or.inr ⟨s', hok, ScanStep.compose (b := { s with current := s.current + 1, column := s.column + 1 })
      ⟨rfl, rfl, Nat.le_succ _, hlt, [], by simp, by simp⟩
      ⟨q1, q2, q3, q4, qts, qt, qn⟩, by omega⟩
  rw [if_neg hc20]
  exact Or.inr ⟨_, rfl, ⟨rfl, rfl, Nat.le_succ _, hlt, [], by simp, by simp⟩,
    Nat.lt_succ_self _⟩

theorem Scanner.scan_loop_spec (fuel : Nat) (s : Scanner)
    (hfuel : s.source.length - s.current ≤ fuel) (hcur : s.current ≤ s.source.length) :
    Scanner.scan_loop fuel s = .error .parseFail ∨
      ∃ s', Scanner.scan_loop fuel s = .ok s' ∧ s'.source = s.source ∧
        s'.current = s.source.length ∧
        ∃ ts, s'.tokens = s.tokens ++ ts ∧ ∀ t ∈ ts, t.token_type ≠ TokenType.Eof := by
  induction fuel generalizing s with
  | zero =>
    exact Or.inr ⟨s, rfl, rfl, by omega, [], by simp, by simp⟩
  | succ fuel ih =>
    rw [Scanner.scan_loop]
    by_cases he : s.is_at_end
    · rw [if_pos he]
      have hend : s.current = s.source.length := by
        simp [Scanner.is_at_end] at he
        omega
      exact Or.inr ⟨s, rfl, rfl, hend, [], by simp, by simp⟩
    · rw [if_neg he]
      have hlt : s.current < s.source.length := by
        simp [Scanner.is_at_end] at he
        omega
      rcases Scanner.scan_token_spec (s := { s with start := s.current }) rfl hlt with
        herr | ⟨s1, hok, ⟨q1, q2, q3, q4, qts, qt, qn⟩, kstrict⟩
      · simp only [herr]
        exact Or.inl trivial
      · simp only [hok]
        have q1a : s1.source = s.source := q1
        have q4a : s1.current ≤ s.source.length := q4
        have kstricta : s.current < s1.current := kstrict
        have qta : s1.tokens = s.tokens ++ qts := qt
        have hlen : s1.source.length = s.source.length := by rw [q1a]
        rcases ih s1 (by omega) (by omega) with herr2 | ⟨s', hrun, r1, r2, rts, rt, rn⟩
        · exact Or.inl herr2
        · refine Or.inr ⟨s', hrun, by rw [r1, q1a], by rw [r2, hlen], qts ++ rts, ?_, ?_⟩
          · rw [rt, qta, List.append_assoc]
          · intro t ht
            rcases List.mem_append.mp ht with hm | hm
            · exact qn t hm
            · exact rn t hm

theorem Scanner.scan_tokens_spec (s : Scanner) (hcur : s.current ≤ s.source.length) :
    Scanner.scan_tokens s = .error .parseFail ∨
      ∃ s1 : Scanner, Scanner.scan_tokens s =
          .ok { s1 with tokens := s1.tokens ++
            [Token.new TokenType.Eof [] none s1.line s1.column] } ∧
        s1.source = s.source ∧ s1.current = s.source.length ∧
        ∃ ts, s1.tokens = s.tokens ++ ts ∧ ∀ t ∈ ts, t.token_type ≠ TokenType.Eof := by
  rcases Scanner.scan_loop_spec (s.source.length - s.current) s (Nat.le_refl _) hcur with
    herr | ⟨s1, hrun, r1, r2, rts, rt, rn⟩
  · simp only [Scanner.scan_tokens, herr]
    exact Or.inl trivial
  · simp only [Scanner.scan_tokens, hrun]
    exact Or.inr ⟨s1, rfl, r1, r2, rts, rt, rn⟩

theorem punct_tokens_length (l : List Char) (line col : Nat) :
    (punct_tokens l line col).length = l.length := by
  induction l generalizing col with
  | nil => rfl
  | cons c rest ih => simp [punct_tokens, ih]

theorem Scanner.scan_token_punct {s : Scanner} {c : Char} {tt : TokenType}
    (hget : s.source[s.current]? = some c) (htt : punct_token_type c = some tt) :
    Scanner.scan_token { s with start := s.current } =
      .ok { s with
        start := s.current, current := s.current + 1, column := s.column + 1,
        tokens := s.tokens ++ [Token.new tt [c] none s.line (s.column + 1)] } := by
  obtain ⟨hlt, hgeteq⟩ := List.getElem?_eq_some.mp hget
  have hdrop : s.source.drop s.current = c :: s.source.drop (s.current + 1) := by
    rw [List.drop_eq_getElem_cons hlt, hgeteq]
  have htake : (s.source.drop s.current).take 1 = [c] := by
    rw [hdrop]
    simp
  unfold punct_token_type at htt
  by_cases h1 : c = '('
  · rw [if_pos h1] at htt
    injection htt with htt2
    subst htt2
    subst h1
    simp only [Scanner.scan_token, Scanner.advance_ok (s := { s with start := s.current }) hget,
      Char.reduceEq, reduceIte]
    rw [Scanner.add_token_ok TokenType.LeftParen none
      (show s.current ≤ s.current + 1 from Nat.le_succ _)
      (show s.current + 1 ≤ s.source.length from hlt)]
    simp [htake]
  rw [if_neg h1] at htt
  by_cases h2 : c = ')'
  · rw [if_pos h2] at htt
    injection htt with htt2
    subst htt2
    subst h2
    simp only [Scanner.scan_token, Scanner.advance_ok (s := { s with start := s.current }) hget,
      Char.reduceEq, reduceIte]
    rw [Scanner.add_token_ok TokenType.RightParen none
      (show s.current ≤ s.current + 1 from Nat.le_succ _)
      (show s.current + 1 ≤ s.source.length from hlt)]
    simp [htake]
  rw [if_neg h2] at htt
  by_cases h3 : c = '{'
  · rw [if_pos h3] at htt
    injection htt with htt2
    subst htt2
    subst h3
    simp only [Scanner.scan_token, Scanner.advance_ok (s := { s with start := s.current }) hget,
      Char.reduceEq, reduceIte]
    rw [Scanner.add_token_ok TokenType.LeftBrace none
      (show s.current ≤ s.current + 1 from Nat.le_succ _)
      (show s.current + 1 ≤ s.source.length from hlt)]
    simp [htake]
  rw [if_neg h3] at htt
  by_cases h4 : c = '}'
  · rw [if_pos h4] at htt
    injection htt with htt2
    subst htt2
    subst h4
    simp only [Scanner.scan_token, Scanner.advance_ok (s := { s with start := s.current }) hget,
      Char.reduceEq, reduceIte]
    rw [Scanner.add_token_ok TokenType.RightBrace none
      (show s.current ≤ s.current + 1 from Nat.le_succ _)
      (show s.current + 1 ≤ s.source.length from hlt)]
    simp [htake]
  rw [if_neg h4] at htt
  by_cases h5 : c = ','
  · rw [if_pos h5] at htt
    injection htt with htt2
    subst htt2
    subst h5
    simp only [Scanner.scan_token, Scanner.advance_ok (s := { s with start := s.current }) hget,
      Char.reduceEq, reduceIte]
    rw [Scanner.add_token_ok TokenType.Comma none
      (show s.current ≤ s.current + 1 from Nat.le_succ _)
      (show s.current + 1 ≤ s.source.length from hlt)]
    simp [htake]
  rw [if_neg h5] at htt
  by_cases h6 : c = '.'
  · rw [if_pos h6] at htt
    injection htt with htt2
    subst htt2
    subst h6
    simp only [Scanner.scan_token, Scanner.advance_ok (s := { s with start := s.current }) hget,
      Char.reduceEq, reduceIte]
    rw [Scanner.add_token_ok TokenType.Dot none
      (show s.current ≤ s.current + 1 from Nat.le_succ _)
      (show s.current + 1 ≤ s.source.length from hlt)]
    simp [htake]
  rw [if_neg h6] at htt
  by_cases h7 : c = '-'
  · rw [if_pos h7] at htt
    injection htt with htt2
    subst htt2
    subst h7
    simp only [Scanner.scan_token, Scanner.advance_ok (s := { s with start := s.current }) hget,
      Char.reduceEq, reduceIte]
    rw [Scanner.add_token_ok TokenType.Minus none
      (show s.current ≤ s.current + 1 from Nat.le_succ _)
      (show s.current + 1 ≤ s.source.length from hlt)]
    simp [htake]
  rw [if_neg h7] at htt
  by_cases h8 : c = '+'
  · rw [if_pos h8] at htt
    injection htt with htt2
    subst htt2
    subst h8
    simp only [Scanner.scan_token, Scanner.advance_ok (s := { s with start := s.current }) hget,
      Char.reduceEq, reduceIte]
    rw [Scanner.add_token_ok TokenType.Plus none
      (show s.current ≤ s.current + 1 from Nat.le_succ _)
      (show s.current + 1 ≤ s.source.length from hlt)]
    simp [htake]
  rw [if_neg h8] at htt
  by_cases h9 : c = ';'
  · rw [if_pos h9] at htt
    injection htt with htt2
    subst htt2
    subst h9
    simp only [Scanner.scan_token, Scanner.advance_ok (s := { s with start := s.current }) hget,
      Char.reduceEq, reduceIte]
    rw [Scanner.add_token_ok TokenType.Semicolon none
      (show s.current ≤ s.current + 1 from Nat.le_succ _)
      (show s.current + 1 ≤ s.source.length from hlt)]
    simp [htake]
  rw [if_neg h9] at htt
  by_cases h10 : c = '*'
  · rw [if_pos h10] at htt
    injection htt with htt2
    subst htt2
    subst h10
    simp only [Scanner.scan_token, Scanner.advance_ok (s := { s with start := s.current }) hget,
      Char.reduceEq, reduceIte]
    rw [Scanner.add_token_ok TokenType.Star none
      (show s.current ≤ s.current + 1 from Nat.le_succ _)
      (show s.current + 1 ≤ s.source.length from hlt)]
    simp [htake]
  rw [if_neg h10] at htt
  exact absurd htt (by simp)

theorem Scanner.scan_loop_punct (l : List Char) :
    ∀ (fuel : Nat) (s : Scanner),
    (∀ c ∈ l, (punct_token_type c).isSome) →
    s.source.drop s.current = l → l.length ≤ fuel →
    ∃ s', Scanner.scan_loop fuel s = .ok s' ∧
      s'.tokens = s.tokens ++ punct_tokens l s.line s.column ∧
      s'.errors = s.errors ∧ s'.line = s.line ∧ s'.column = s.column + l.length ∧
      s'.current = s.current + l.length ∧ s'.source = s.source := by
  induction l with
  | nil =>
    intro fuel s hall hdrop hfuel
    have hend : s.source.length ≤ s.current := by
      have hl := congrArg List.length hdrop
      simp [List.length_drop] at hl
      omega
    have hres : Scanner.scan_loop fuel s = .ok s := by
      cases fuel with
      | zero => rfl
      | succ n =>
        rw [Scanner.scan_loop, if_pos (show s.is_at_end = true by
          simpa [Scanner.is_at_end] using hend)]
    exact ⟨s, hres, by simp [punct_tokens], rfl, rfl, by simp, by simp, rfl⟩
  | cons c rest ih =>
    intro fuel s hall hdrop hfuel
    have hfuel1 : rest.length + 1 ≤ fuel := by simpa using hfuel
    obtain ⟨fuel, rfl⟩ : ∃ f, fuel = f + 1 := ⟨fuel - 1, by omega⟩
    have hget : s.source[s.current]? = some c := by
      have h0 : (s.source.drop s.current)[0]? = some c := by rw [hdrop]; simp
      rw [List.getElem?_drop] at h0
      simpa using h0
    obtain ⟨hlt, hgeteq⟩ := List.getElem?_eq_some.mp hget
    have hdrop2 : s.source.drop (s.current + 1) = rest := by
      have hd := List.drop_eq_getElem_cons hlt
      rw [hdrop, hgeteq] at hd
      exact (List.cons.injEq .. ▸ hd : _ ∧ _).2.symm
    have hne : ¬ s.is_at_end = true := by
      simp [Scanner.is_at_end]
      omega
    obtain ⟨tt, htt⟩ : ∃ tt, punct_token_type c = some tt :=
      Option.isSome_iff_exists.mp (hall c (by simp))
    rw [Scanner.scan_loop, if_neg hne]
    simp only [Scanner.scan_token_punct hget htt]
    obtain ⟨s', hrun, t1, t2, t3, t4, t5, t6⟩ := ih fuel
      { s with
        start := s.current, current := s.current + 1, column := s.column + 1,
        tokens := s.tokens ++ [Token.new tt [c] none s.line (s.column + 1)] }
      (fun c2 hc2 => hall c2 (by simp [hc2]))
      (by simpa using hdrop2) (by simpa using Nat.le_of_succ_le_succ hfuel)
    have t1a : s'.tokens = (s.tokens ++ [Token.new tt [c] none s.line (s.column + 1)]) ++
      punct_tokens rest s.line (s.column + 1) := t1
    have t2a : s'.errors = s.errors := t2
    have t3a : s'.line = s.line := t3
    have t4a : s'.column = (s.column + 1) + rest.length := t4
    have t5a : s'.current = (s.current + 1) + rest.length := t5
    have t6a : s'.source = s.source := t6
    refine ⟨s', hrun, ?_, t2a, t3a, by simp [t4a]; omega, by simp [t5a]; omega, t6a⟩
    rw [t1a]
    simp [punct_tokens, htt]

theorem Scanner.advance_peek_op_aux {s : Scanner} {c : Char} (one two : TokenType)
    (hget : s.source[s.current]? = some c) :
    (match ({ s with
        start := s.current, current := s.current + 1, column := s.column + 1 } : Scanner).advance_peek '=' with
     | (true, s2) => s2.add_token two none
     | (false, s2) => s2.add_token one none) = .ok (two_char_op_result s c one two) := by
  obtain ⟨hlt, hgeteq⟩ := List.getElem?_eq_some.mp hget
  have htake1 : (s.source.drop s.current).take 1 = [c] := by
    rw [List.drop_eq_getElem_cons hlt, hgeteq]
    simp
  cases hx : s.source[s.current + 1]? with
  | none =>
    have hap : ({ s with
        start := s.current, current := s.current + 1, column := s.column + 1 } : Scanner).advance_peek '=' =
        (false, { s with
          start := s.current, current := s.current + 1, column := s.column + 1 }) := by
      simp [Scanner.advance_peek, hx]
    simp only [hap]
    rw [Scanner.add_token_ok one none (show s.current ≤ s.current + 1 from Nat.le_succ _)
      (show s.current + 1 ≤ s.source.length from hlt)]
    rw [two_char_op_result, if_neg (show ¬s.source[s.current + 1]? = some '=' by simp [hx])]
    simp [htake1]
  | some c2 =>
    obtain ⟨hlt2, hgeteq2⟩ := List.getElem?_eq_some.mp hx
    by_cases hc2 : c2 = '='
    · subst hc2
      have hap : ({ s with
          start := s.current, current := s.current + 1, column := s.column + 1 } : Scanner).advance_peek '=' =
          (true, { s with
            start := s.current, current := s.current + 1 + 1, column := s.column + 1 + 1 }) := by
        simp [Scanner.advance_peek, hx]
      simp only [hap]
      rw [Scanner.add_token_ok two none
        (show s.current ≤ s.current + 1 + 1 from by omega)
        (show s.current + 1 + 1 ≤ s.source.length from hlt2)]
      rw [two_char_op_result, if_pos (by rw [hx])]
      have htake2 : (s.source.drop s.current).take 2 = [c, '='] := by
        rw [List.drop_eq_getElem_cons hlt, hgeteq,
          List.drop_eq_getElem_cons hlt2, hgeteq2]
        simp
      simp [htake2, Nat.add_assoc]
    · have hap : ({ s with
          start := s.current, current := s.current + 1, column := s.column + 1 } : Scanner).advance_peek '=' =
          (false, { s with
            start := s.current, current := s.current + 1, column := s.column + 1 }) := by
        simp [Scanner.advance_peek, hx, hc2]
      simp only [hap]
      rw [Scanner.add_token_ok one none (show s.current ≤ s.current + 1 from Nat.le_succ _)
        (show s.current + 1 ≤ s.source.length from hlt)]
      rw [two_char_op_result, if_neg (show ¬s.source[s.current + 1]? = some '=' by
        simp [hx, hc2])]
      simp [htake1]

/-- C6: a two-character operator token (`!=`, `==`, `<=`, `>=`) is emitted if
and only if the starter `!`, `=`, `<` or `>` is immediately followed by `=`;
otherwise (another character, or end of input) only the one-character token is
emitted and only the starter is consumed — `two_char_op_result` has exactly
this case split on the character after the starter. -/
theorem scan_token_two_char_operators (s : Scanner) :
    (s.source[s.current]? = some '!' →
      Scanner.scan_token { s with start := s.current } =
        .ok (two_char_op_result s '!' TokenType.Bang TokenType.BangEqual)) ∧
    (s.source[s.current]? = some '=' →
      Scanner.scan_token { s with start := s.current } =
        .ok (two_char_op_result s '=' TokenType.Equal TokenType.EqualEqual)) ∧
    (s.source[s.current]? = some '<' →
      Scanner.scan_token { s with start := s.current } =
        .ok (two_char_op_result s '<' TokenType.Less TokenType.LessEqual)) ∧
    (s.source[s.current]? = some '>' →
      Scanner.scan_token { s with start := s.current } =
        .ok (two_char_op_result s '>' TokenType.Greater TokenType.GreaterEqual)) := by
  refine ⟨fun hget => ?_, fun hget => ?_, fun hget => ?_, fun hget => ?_⟩ <;>
    simp only [Scanner.scan_token,
      Scanner.advance_ok (s := { s with start := s.current }) hget,
      Char.reduceEq, reduceIte]
  · exact Scanner.advance_peek_op_aux TokenType.Bang TokenType.BangEqual hget
  · exact Scanner.advance_peek_op_aux TokenType.Equal TokenType.EqualEqual hget
  · exact Scanner.advance_peek_op_aux TokenType.Less TokenType.LessEqual hget
  · exact Scanner.advance_peek_op_aux TokenType.Greater TokenType.GreaterEqual hget

theorem Scanner.string_loop_run (pre : List Char) :
    ∀ (post : List Char) (fuel : Nat) (s : Scanner),
    '"' ∉ pre → s.source.drop s.current = pre ++ '"' :: post →
    pre.length ≤ fuel →
    ∃ s1, Scanner.string_loop fuel s = .ok s1 ∧ s1.source = s.source ∧
      s1.start = s.start ∧ s1.tokens = s.tokens ∧ s1.errors = s.errors ∧
      s1.current = s.current + pre.length := by
  induction pre with
  | nil =>
    intro post fuel s hnq hdrop hfuel
    have hget : s.source[s.current]? = some '"' := by
      have h0 : (s.source.drop s.current)[0]? = some '"' := by rw [hdrop]; simp
      rw [List.getElem?_drop] at h0
      simpa using h0
    have hres : Scanner.string_loop fuel s = .ok s := by
      cases fuel with
      | zero => rfl
      | succ n =>
        rw [Scanner.string_loop, if_neg]
        simp [Scanner.peek, hget]
    exact ⟨s, hres, rfl, rfl, rfl, rfl, by simp⟩
  | cons p pre ih =>
    intro post fuel s hnq hdrop hfuel
    have hfuel1 : pre.length + 1 ≤ fuel := by simpa using hfuel
    obtain ⟨fuel, rfl⟩ : ∃ f, fuel = f + 1 := ⟨fuel - 1, by omega⟩
    have hget : s.source[s.current]? = some p := by
      have h0 : (s.source.drop s.current)[0]? = some p := by rw [hdrop]; simp
      rw [List.getElem?_drop] at h0
      simpa using h0
    obtain ⟨hlt, hgeteq⟩ := List.getElem?_eq_some.mp hget
    have hpeek : s.peek = p := by simp [Scanner.peek, hget]
    have hpq : p ≠ '"' := by
      intro hcontra
      exact hnq (by simp [hcontra])
    have hnq2 : '"' ∉ pre := fun hm => hnq (by simp [hm])
    have hdrop2 : s.source.drop (s.current + 1) = pre ++ '"' :: post := by
      have hd := List.drop_eq_getElem_cons hlt
      rw [hdrop, hgeteq] at hd
      exact (List.cons.injEq .. ▸ hd : _ ∧ _).2.symm
    have hguard : (s.peek != '"' && !s.is_at_end) = true := by
      simp [hpeek, hpq, Scanner.is_at_end]
      omega
    rw [Scanner.string_loop, if_pos hguard]
    by_cases hnl : s.peek = '\n'
    · rw [if_pos hnl, Scanner.advance_ok (s := { s with line := s.line + 1 }) hget]
      obtain ⟨s1, hrun, t1, t2, t3, t4, t5⟩ := ih post fuel
        { s with line := s.line + 1, current := s.current + 1, column := s.column + 1 }
        hnq2 hdrop2 (by omega)
      exact ⟨s1, hrun, t1, t2, t3, t4, by simp [t5]; omega⟩
    · rw [if_neg hnl, Scanner.advance_ok hget]
      obtain ⟨s1, hrun, t1, t2, t3, t4, t5⟩ := ih post fuel
        { s with current := s.current + 1, column := s.column + 1 }
        hnq2 hdrop2 (by omega)
      exact ⟨s1, hrun, t1, t2, t3, t4, by simp [t5]; omega⟩

theorem Scanner.construct_string_terminated (s : Scanner) (pre post : List Char)
    (hnq : '"' ∉ pre)
    (hdrop : s.source.drop s.start = '"' :: (pre ++ '"' :: post))
    (hcur : s.current = s.start + 1) :
    ∃ (s' : Scanner) (l k : Nat), s.construct_string = .ok s' ∧
      s'.tokens = s.tokens ++
        [Token.new TokenType.String ('"' :: pre ++ ['"'])
          (some (Literal.String pre)) l k] ∧
      s'.errors = s.errors ∧ s'.current = s.current + pre.length + 1 := by
  have hlen0 : s.source.length - s.start = pre.length + post.length + 2 := by
    have h := congrArg List.length hdrop
    simp [List.length_drop] at h
    omega
  have hstartlt : s.start < s.source.length := by omega
  have hdropc : s.source.drop s.current = pre ++ '"' :: post := by
    have hd := List.drop_eq_getElem_cons hstartlt
    rw [hdrop] at hd
    injection hd with hh1 hh2
    rw [hcur]
    exact hh2.symm
  obtain ⟨s1, hrun, t1, t2, t3, t4, t5⟩ :=
    Scanner.string_loop_run pre post (s.source.length - s.current) s hnq hdropc (by omega)
  have hlen1 : s1.source.length = s.source.length := by rw [t1]
  simp only [Scanner.construct_string, hrun]
  rw [if_neg (show ¬ s1.is_at_end = true by
    simp [Scanner.is_at_end]
    omega)]
  have hget1 : s1.source[s1.current]? = some '"' := by
    rw [t1, t5]
    have h0 : (s.source.drop s.current)[pre.length]? = some '"' := by
      rw [hdropc, List.getElem?_append_right (Nat.le_refl _)]
      simp
    rw [List.getElem?_drop] at h0
    exact h0
  simp only [Scanner.advance_ok hget1]
  have hslice : ({ s1 with
      current := s1.current + 1, column := s1.column + 1 } : Scanner).slice (s1.start + 1) (s1.current + 1 - 1) =
      .ok pre := by
    rw [Scanner.slice, if_pos (show s1.start + 1 ≤ s1.current + 1 - 1 ∧
      s1.current + 1 - 1 ≤ s1.source.length from ⟨by omega, by omega⟩)]
    have hdropa : s1.source.drop (s1.start + 1) = pre ++ '"' :: post := by
      rw [t1, t2, ← hcur, hdropc]
    have hidx : s1.current + 1 - 1 - (s1.start + 1) = pre.length := by omega
    rw [hdropa, hidx, show pre = (pre ++ '"' :: post).take pre.length from
      (List.take_left pre _).symm]
    rw [List.take_left]
  simp only [hslice]
  rw [Scanner.add_token_ok (s := { s1 with
      current := s1.current + 1, column := s1.column + 1 }) TokenType.String (some (Literal.String pre))
    (show s1.start ≤ s1.current + 1 from by omega)
    (show s1.current + 1 ≤ s1.source.length from by omega)]
  have hlex : (s1.source.drop s1.start).take (s1.current + 1 - s1.start) =
      '"' :: pre ++ ['"'] := by
    have hidx2 : s1.current + 1 - s1.start = pre.length + 2 := by omega
    have hdropb : s1.source.drop s1.start = ('"' :: pre ++ ['"']) ++ post := by
      rw [t1, t2, hdrop]
      simp
    rw [hidx2, hdropb, show pre.length + 2 = ('"' :: pre ++ ['"']).length by simp,
      List.take_left]
  refine ⟨_, s1.line, s1.column + 1, rfl,
    show s1.tokens ++ _ = s.tokens ++ _ from by rw [hlex, t3],
    show s1.errors = s.errors from t4,
    show s1.current + 1 = s.current + pre.length + 1 from by omega⟩

theorem Scanner.string_loop_all (l : List Char) :
    ∀ (fuel : Nat) (s : Scanner), (∀ c ∈ l, c ≠ '"') →
    s.source.drop s.current = l → s.current ≤ s.source.length → l.length ≤ fuel →
    ∃ s1, Scanner.string_loop fuel s = .ok s1 ∧ s1.source = s.source ∧
      s1.start = s.start ∧ s1.tokens = s.tokens ∧ s1.errors = s.errors ∧
      s1.current = s.source.length := by
  induction l with
  | nil =>
    intro fuel s hnq hdrop hcur hfuel
    have hend : s.source.length ≤ s.current := by
      have h := congrArg List.length hdrop
      simp [List.length_drop] at h
      omega
    have hres : Scanner.string_loop fuel s = .ok s := by
      cases fuel with
      | zero => rfl
      | succ n =>
        rw [Scanner.string_loop, if_neg]
        simp [Scanner.is_at_end]
        omega
    exact ⟨s, hres, rfl, rfl, rfl, rfl, by omega⟩
  | cons c rest ih =>
    intro fuel s hnq hdrop hcur hfuel
    have hfuel1 : rest.length + 1 ≤ fuel := by simpa using hfuel
    obtain ⟨fuel, rfl⟩ : ∃ f, fuel = f + 1 := ⟨fuel - 1, by omega⟩
    have hget : s.source[s.current]? = some c := by
      have h0 : (s.source.drop s.current)[0]? = some c := by rw [hdrop]; simp
      rw [List.getElem?_drop] at h0
      simpa using h0
    obtain ⟨hlt, hgeteq⟩ := List.getElem?_eq_some.mp hget
    have hpeek : s.peek = c := by simp [Scanner.peek, hget]
    have hpq : c ≠ '"' := hnq c (by simp)
    have hnq2 : ∀ c2 ∈ rest, c2 ≠ '"' := fun c2 hm => hnq c2 (by simp [hm])
    have hdrop2 : s.source.drop (s.current + 1) = rest := by
      have hd := List.drop_eq_getElem_cons hlt
      rw [hdrop, hgeteq] at hd
      injection hd with hh1 hh2
      exact hh2.symm
    have hguard : (s.peek != '"' && !s.is_at_end) = true := by
      simp [hpeek, hpq, Scanner.is_at_end]
      omega
    rw [Scanner.string_loop, if_pos hguard]
    by_cases hnl : s.peek = '\n'
    · rw [if_pos hnl, Scanner.advance_ok (s := { s with line := s.line + 1 }) hget]
      obtain ⟨s1, hrun, t1, t2, t3, t4, t5⟩ := ih fuel
        { s with line := s.line + 1, current := s.current + 1, column := s.column + 1 }
        hnq2 hdrop2 hlt (by omega)
      exact ⟨s1, hrun, t1, t2, t3, t4, t5⟩
    · rw [if_neg hnl, Scanner.advance_ok hget]
      obtain ⟨s1, hrun, t1, t2, t3, t4, t5⟩ := ih fuel
        { s with current := s.current + 1, column := s.column + 1 }
        hnq2 hdrop2 hlt (by omega)
      exact ⟨s1, hrun, t1, t2, t3, t4, t5⟩

/-- C1 (the code violates the claim): the claim says the `unwrap` in
`Scanner::construct_number` is unreachable — parsing the consumed lexeme as a
64-bit float always succeeds. It is reachable: on source `1٢` (an ASCII digit
followed by U+0662 ARABIC-INDIC DIGIT TWO) number extraction is entered, the
continuation loop accepts the Unicode digit because it uses
`char::is_numeric`, and `f64` parsing of the lexeme `1٢` fails (only ASCII
digits are accepted), so `scan_tokens` aborts with the unwrap panic, modelled
as the `parseFail` outcome. -/
theorem construct_number_unwrap_reachable :
    rust_is_numeric '٢' = true ∧ f64_from_str_ok ['1', '٢'] = false ∧
    Scanner.scan_tokens (Scanner.new ['1', '٢']) = Except.error RustPanic.parseFail :=
  ⟨rfl, by decide, rfl⟩

/-- C2: whenever `scan_tokens` completes, the produced token sequence ends
with exactly one end-of-input token whose lexeme is the empty string, and no
Eof token occurs anywhere else in the sequence. -/
theorem scan_tokens_single_trailing_eof (src : List Char) (r : Scanner)
    (h : Scanner.scan_tokens (Scanner.new src) = .ok r) :
    (∃ t, r.tokens.getLast? = some t ∧ t.token_type = TokenType.Eof ∧ t.lexeme = []) ∧
    ∀ t ∈ r.tokens.dropLast, t.token_type ≠ TokenType.Eof := by
  rcases Scanner.scan_tokens_spec (Scanner.new src) (by simp [Scanner.new]) with
    herr | ⟨s1, hok, r1, r2, ts, rt, rn⟩
  · rw [herr] at h
    simp at h
  · rw [hok] at h
    injection h with h2
    subst h2
    constructor
    · exact ⟨Token.new TokenType.Eof [] none s1.line s1.column,
        show (s1.tokens ++ [Token.new TokenType.Eof [] none s1.line s1.column]).getLast?
          = some _ from List.getLast?_concat _, rfl, rfl⟩
    · intro t ht
      have ht2 : t ∈ (s1.tokens ++
          [Token.new TokenType.Eof [] none s1.line s1.column]).dropLast := ht
      rw [List.dropLast_concat] at ht2
      have rta : s1.tokens = ts := by simpa using rt
      exact rn t (rta ▸ ht2)

theorem scan_tokens_single_trailing_eof_witness :
    ∃ r : Scanner, Scanner.scan_tokens (Scanner.new ['(']) = .ok r ∧
      ((∃ t, r.tokens.getLast? = some t ∧ t.token_type = TokenType.Eof ∧ t.lexeme = []) ∧
       ∀ t ∈ r.tokens.dropLast, t.token_type ≠ TokenType.Eof) :=
  ⟨_, rfl, scan_tokens_single_trailing_eof ['('] _ rfl⟩

/-- C3: when string extraction runs with no closing quote anywhere in the
remaining input, the scanner emits no token for the lexeme and appends exactly
one "Unterminated string." error, leaving the cursor at end of input; an
at-end scan loop performs no further steps; and `scan_tokens` on an at-end
state still appends the Eof token — so the scan completes. -/
theorem unterminated_string_single_error :
    (∀ s : Scanner, s.current ≤ s.source.length →
      (∀ c ∈ s.source.drop s.current, c ≠ '"') →
      ∃ s', s.construct_string = .ok s' ∧ s'.tokens = s.tokens ∧
        s'.errors = s.errors ++ [⟨"Unterminated string.", s'.line, s'.column⟩] ∧
        s'.current = s.source.length) ∧
    (∀ (fuel : Nat) (s2 : Scanner), s2.is_at_end = true →
      Scanner.scan_loop fuel s2 = .ok s2) ∧
    (∀ s2 : Scanner, s2.current = s2.source.length →
      Scanner.scan_tokens s2 = .ok { s2 with tokens := s2.tokens ++
        [Token.new TokenType.Eof [] none s2.line s2.column] }) := by
  refine ⟨?_, ?_, ?_⟩
  · intro s hcur hnq
    obtain ⟨s1, hrun, t1, t2, t3, t4, t5⟩ :=
      Scanner.string_loop_all (s.source.drop s.current) (s.source.length - s.current) s
        hnq rfl hcur (by simp [List.length_drop])
    have hlen1 : s1.source.length = s.source.length := by rw [t1]
    simp only [Scanner.construct_string, hrun]
    rw [if_pos (show s1.is_at_end = true by
      simp [Scanner.is_at_end]
      omega)]
    exact ⟨_, rfl, t3, show s1.errors ++ _ = s.errors ++ _ from by rw [t4],
      show s1.current = s.source.length from t5⟩
  · intro fuel s2 h
    cases fuel with
    | zero => rfl
    | succ n => rw [Scanner.scan_loop, if_pos h]
  · intro s2 h
    have hz : s2.source.length - s2.current = 0 := by omega
    simp only [Scanner.scan_tokens, hz, Scanner.scan_loop]

theorem unterminated_string_single_error_witness :
    (∃ s', Scanner.construct_string ⟨['"', 'a', 'b'], [], 0, 1, 1, 1, []⟩ = .ok s' ∧
      s'.tokens = [] ∧
      s'.errors = [] ++ [⟨"Unterminated string.", s'.line, s'.column⟩] ∧
      s'.current = 3) ∧
    Scanner.scan_loop 5 (⟨['"'], [], 0, 1, 1, 1,
      [⟨"Unterminated string.", 1, 1⟩]⟩ : Scanner) =
      .ok ⟨['"'], [], 0, 1, 1, 1, [⟨"Unterminated string.", 1, 1⟩]⟩ ∧
    Scanner.scan_tokens (⟨['"'], [], 0, 1, 1, 1,
      [⟨"Unterminated string.", 1, 1⟩]⟩ : Scanner) =
      .ok ⟨['"'], [Token.new TokenType.Eof [] none 1 1], 0, 1, 1, 1,
        [⟨"Unterminated string.", 1, 1⟩]⟩ :=
  ⟨unterminated_string_single_error.1 ⟨['"', 'a', 'b'], [], 0, 1, 1, 1, []⟩
      (by decide) (by decide),
    unterminated_string_single_error.2.1 5 _ (by decide),
    unterminated_string_single_error.2.2 _ rfl⟩

/-- C4: the cursor invariant `0 ≤ start ≤ current ≤ len(source)`: the scan
never reads past the end of the buffer (no out-of-bounds panic is possible on
any input), the scan loop hands `scan_token` a state with `start = current`
(the beginning of each lexeme), and a completed `scan_token` step preserves
`start ≤ current ≤ len(source)`. -/
theorem scanner_cursor_invariant :
    (∀ src : List Char,
      Scanner.scan_tokens (Scanner.new src) ≠ .error RustPanic.indexOutOfBounds) ∧
    (∀ s : Scanner, ({ s with start := s.current } : Scanner).start =
      ({ s with start := s.current } : Scanner).current) ∧
    (∀ s s' : Scanner, s.current < s.source.length →
      Scanner.scan_token { s with start := s.current } = .ok s' →
      s'.start ≤ s'.current ∧ s'.current ≤ s'.source.length) := by
  refine ⟨?_, fun s => rfl, ?_⟩
  · intro src hcontra
    rcases Scanner.scan_tokens_spec (Scanner.new src) (by simp [Scanner.new]) with
      herr | ⟨s1, hok, _⟩
    · rw [herr] at hcontra
      simp at hcontra
    · rw [hok] at hcontra
      simp at hcontra
  · intro s s' hlt hok
    rcases Scanner.scan_token_spec (s := { s with start := s.current }) rfl hlt with
      herr | ⟨s2, hok2, ⟨k1, k2, k3, k4, _⟩, _⟩
    · rw [herr] at hok
      simp at hok
    · rw [hok2] at hok
      injection hok with h2
      subst h2
      have k2a : s2.start = s.current := k2
      have k3a : s.current ≤ s2.current := k3
      have k4a : s2.current ≤ s.source.length := k4
      have hl : s2.source.length = s.source.length := by
        rw [show s2.source = s.source from k1]
      exact ⟨by omega, by omega⟩

theorem scanner_cursor_invariant_witness :
    Scanner.scan_tokens (Scanner.new ['(']) ≠ .error RustPanic.indexOutOfBounds ∧
    (∃ s' : Scanner,
      Scanner.scan_token (⟨['('], [], 0, 0, 1, 0, []⟩ : Scanner) = .ok s' ∧
      (s'.start ≤ s'.current ∧ s'.current ≤ s'.source.length)) :=
  ⟨scanner_cursor_invariant.1 ['('],
    ⟨_, rfl, scanner_cursor_invariant.2.2 ⟨['('], [], 0, 0, 1, 0, []⟩ _ (by decide) rfl⟩⟩

/-- C5: for every input consisting solely of recognized single-character
punctuation marks, scanning yields exactly one token per character, in
left-to-right source order with kinds matching the characters, plus one final
Eof token (N + 1 tokens in total), and no errors. -/
theorem scan_tokens_punct_only (l : List Char)
    (hall : ∀ c ∈ l, (punct_token_type c).isSome) :
    ∃ r : Scanner, Scanner.scan_tokens (Scanner.new l) = .ok r ∧
      r.tokens = punct_tokens l 1 0 ++ [Token.new TokenType.Eof [] none 1 l.length] ∧
      r.errors = [] ∧ r.tokens.length = l.length + 1 := by
  obtain ⟨s', hrun, t1, t2, t3, t4, t5, t6⟩ :=
    Scanner.scan_loop_punct l l.length (Scanner.new l) hall (by simp [Scanner.new])
      (Nat.le_refl _)
  have hfuel : (Scanner.new l).source.length - (Scanner.new l).current = l.length := by
    simp [Scanner.new]
  have t1a : s'.tokens = [] ++ punct_tokens l 1 0 := t1
  have t2a : s'.errors = [] := t2
  have t3a : s'.line = 1 := t3
  have t4a : s'.column = 0 + l.length := t4
  simp only [Scanner.scan_tokens, hfuel, hrun]
  have htok : s'.tokens ++ [Token.new TokenType.Eof [] none s'.line s'.column] =
      punct_tokens l 1 0 ++ [Token.new TokenType.Eof [] none 1 l.length] := by
    rw [t1a, t3a, t4a]
    simp
  refine ⟨_, rfl, htok, t2a, ?_⟩
  rw [show ({ s' with tokens := s'.tokens ++
      [Token.new TokenType.Eof [] none s'.line s'.column] } : Scanner).tokens =
    punct_tokens l 1 0 ++ [Token.new TokenType.Eof [] none 1 l.length] from htok]
  simp [punct_tokens_length]

theorem scan_tokens_punct_only_witness :
    ∃ r : Scanner, Scanner.scan_tokens (Scanner.new "(){},.-+;*".data) = .ok r ∧
      r.tokens = punct_tokens "(){},.-+;*".data 1 0 ++
        [Token.new TokenType.Eof [] none 1 "(){},.-+;*".data.length] ∧
      r.errors = [] ∧ r.tokens.length = "(){},.-+;*".data.length + 1 :=
  scan_tokens_punct_only "(){},.-+;*".data (by decide)

theorem scan_token_two_char_operators_witness :
    Scanner.scan_token (⟨['!', '='], [], 0, 0, 1, 0, []⟩ : Scanner) =
      .ok (two_char_op_result ⟨['!', '='], [], 0, 0, 1, 0, []⟩ '!'
        TokenType.Bang TokenType.BangEqual) ∧
    Scanner.scan_token (⟨['!', 'x'], [], 0, 0, 1, 0, []⟩ : Scanner) =
      .ok (two_char_op_result ⟨['!', 'x'], [], 0, 0, 1, 0, []⟩ '!'
        TokenType.Bang TokenType.BangEqual) :=
  ⟨(scan_token_two_char_operators ⟨['!', '='], [], 0, 0, 1, 0, []⟩).1 (by decide),
   (scan_token_two_char_operators ⟨['!', 'x'], [], 0, 0, 1, 0, []⟩).1 (by decide)⟩

/-- C7: a terminated string literal is emitted as a single string token whose
`Literal::String` payload is exactly the source text strictly between the
opening and closing quotes (delimiters excluded); concretely, the quoted
input `"Coolstorm"` yields a String token and Eof, the decoded literal being
`Coolstorm`. -/
theorem string_literal_between_quotes :
    (∀ (s : Scanner) (pre post : List Char), '"' ∉ pre →
      s.source.drop s.start = '"' :: (pre ++ '"' :: post) →
      s.current = s.start + 1 →
      ∃ (s' : Scanner) (l k : Nat), s.construct_string = .ok s' ∧
        s'.tokens = s.tokens ++ [Token.new TokenType.String ('"' :: pre ++ ['"'])
          (some (Literal.String pre)) l k] ∧
        s'.errors = s.errors ∧ s'.current = s.current + pre.length + 1) ∧
    (∃ r : Scanner, Scanner.scan_tokens (Scanner.new "\"Coolstorm\"".data) = .ok r ∧
      r.tokens.map Token.token_type = [TokenType.String, TokenType.Eof] ∧
      r.tokens.map Token.literal = [some (Literal.String "Coolstorm".data), none] ∧
      r.errors = []) := by
  constructor
  · intro s pre post hnq hdrop hcur
    exact Scanner.construct_string_terminated s pre post hnq hdrop hcur
  · exact ⟨_, rfl, by decide, by decide, by decide⟩

theorem string_literal_between_quotes_witness :
    ∃ (s' : Scanner) (l k : Nat),
      Scanner.construct_string (⟨['"', 'x', '"'], [], 0, 1, 1, 1, []⟩ : Scanner) = .ok s' ∧
      s'.tokens = [] ++ [Token.new TokenType.String ('"' :: ['x'] ++ ['"'])
        (some (Literal.String ['x'])) l k] ∧
      s'.errors = [] ∧ s'.current = 1 + ['x'].length + 1 :=
  string_literal_between_quotes.1 ⟨['"', 'x', '"'], [], 0, 1, 1, 1, []⟩ ['x'] []
    (by decide) (by decide) rfl

/-- C8: a character outside every recognized class yields exactly one
appended "Unexpected character: c" error at the cursor position after the
character is consumed, no token, and the cursor simply moves on by one so
scanning continues; concretely `@(` yields that error plus a LeftParen token
and Eof. -/
theorem unexpected_character_recovery :
    (∀ (s : Scanner) (c : Char), s.source[s.current]? = some c →
      c ∉ ['(', ')', '{', '}', ',', '.', '-', '+', ';', '*', '!', '=', '<', '>',
           '/', ' ', '\r', '\t', '\n', '"', '_'] →
      ¬('0' ≤ c ∧ c ≤ '9') → ¬('a' ≤ c ∧ c ≤ 'z') → ¬('A' ≤ c ∧ c ≤ 'Z') →
      Scanner.scan_token { s with start := s.current } =
        .ok { s with
          start := s.current, current := s.current + 1, column := s.column + 1,
          errors := s.errors ++ [⟨"Unexpected character: " ++ c.toString,
            s.line, s.column + 1⟩] }) ∧
    (∃ r : Scanner, Scanner.scan_tokens (Scanner.new ['@', '(']) = .ok r ∧
      r.errors = [⟨"Unexpected character: @", 1, 1⟩] ∧
      r.tokens.map Token.token_type = [TokenType.LeftParen, TokenType.Eof]) := by
  constructor
  · intro s c hget hnp hnd hna1 hna2
    simp only [List.mem_cons, List.not_mem_nil, or_false, not_or] at hnp
    obtain ⟨n1, n2, n3, n4, n5, n6, n7, n8, n9, n10, n11, n12, n13, n14, n15, n16,
      n17, n18, n19, n20, n21⟩ := hnp
    simp only [Scanner.scan_token,
      Scanner.advance_ok (s := { s with start := s.current }) hget]
    rw [if_neg n1, if_neg n2, if_neg n3, if_neg n4, if_neg n5, if_neg n6, if_neg n7,
      if_neg n8, if_neg n9, if_neg n10, if_neg n11, if_neg n12, if_neg n13, if_neg n14,
      if_neg n15,
      if_neg (show ¬(c = ' ' ∨ c = '\r' ∨ c = '\t') by
        simp only [not_or]
        exact ⟨n16, n17, n18⟩),
      if_neg n19, if_neg n20, if_neg hnd,
      if_neg (show ¬(('a' ≤ c ∧ c ≤ 'z') ∨ ('A' ≤ c ∧ c ≤ 'Z') ∨ c = '_') by
        simp only [not_or]
        exact ⟨hna1, hna2, n21⟩)]
  · exact ⟨_, rfl, by decide, by decide⟩

theorem unexpected_character_recovery_witness :
    Scanner.scan_token (⟨['@'], [], 0, 0, 1, 0, []⟩ : Scanner) =
      .ok (⟨['@'], [], 0, 1, 1, 1, [⟨"Unexpected character: @", 1, 1⟩]⟩ : Scanner) :=
  unexpected_character_recovery.1 ⟨['@'], [], 0, 0, 1, 0, []⟩ '@' (by decide)
    (by decide) (by decide) (by decide) (by decide)

/-- C9: `add_token` stamps every emitted token with the scanner's cursor line
and column at the moment of emission, i.e. after the lexeme has been fully
consumed; concretely, scanning `==` reports the EqualEqual token at column 2
(the position of the lexeme's last character), not column 1. -/
theorem token_position_is_emission_position :
    (∀ (s : Scanner) (tt : TokenType) (lit : Option Literal) (s' : Scanner),
      s.add_token tt lit = .ok s' →
      s'.tokens.getLast? = some (Token.new tt
        ((s.source.drop s.start).take (s.current - s.start)) lit s.line s.column)) ∧
    (∃ r : Scanner, Scanner.scan_tokens (Scanner.new ['=', '=']) = .ok r ∧
      r.tokens.map Token.column = [2, 2] ∧
      r.tokens.map Token.token_type = [TokenType.EqualEqual, TokenType.Eof]) := by
  constructor
  · intro s tt lit s' h
    rw [Scanner.add_token] at h
    cases hs : s.slice s.start s.current with
    | error e =>
      simp only [hs] at h
      exact absurd h (by simp)
    | ok text =>
      simp only [hs] at h
      injection h with h2
      subst h2
      have htext : text = (s.source.drop s.start).take (s.current - s.start) := by
        rw [Scanner.slice] at hs
        by_cases hg : s.start ≤ s.current ∧ s.current ≤ s.source.length
        · rw [if_pos hg] at hs
          injection hs with h3
          exact h3.symm
        · rw [if_neg hg] at hs
          exact absurd hs (by simp)
      subst htext
      exact List.getLast?_concat _
  · exact ⟨_, rfl, by decide, by decide⟩

theorem token_position_is_emission_position_witness :
    ∃ s' : Scanner,
      Scanner.add_token ⟨['a'], [], 0, 1, 1, 1, []⟩ TokenType.Identifier none = .ok s' ∧
      s'.tokens.getLast? = some (Token.new TokenType.Identifier
        ((['a'].drop 0).take (1 - 0)) none 1 1) :=
  ⟨_, rfl, token_position_is_emission_position.1 ⟨['a'], [], 0, 1, 1, 1, []⟩
    TokenType.Identifier none _ rfl⟩

/-- C10: identifier continuation is Unicode-aware: after an ASCII-letter
start, a non-ASCII alphanumeric character such as é (U+00E9, outside the
ASCII letter ranges) is included in the identifier lexeme — source `aé` scans
to a single Identifier token with lexeme `aé` and no error — because the
continuation test is `char::is_alphanumeric`, not an ASCII class. -/
theorem identifier_accepts_unicode_continuation :
    rust_is_alphanumeric 'é' = true ∧ ¬('a' ≤ 'é' ∧ 'é' ≤ 'z') ∧
    ∃ r : Scanner, Scanner.scan_tokens (Scanner.new ['a', 'é']) = .ok r ∧
      r.tokens.map Token.token_type = [TokenType.Identifier, TokenType.Eof] ∧
      r.tokens.map Token.lexeme = [['a', 'é'], []] ∧ r.errors = [] :=
  ⟨rfl, by decide, ⟨_, rfl, by decide, by decide, by decide⟩⟩
